import Mathlib

/-!
Shallow embedding of `src/commands/showQuickCommitDetails.ts`
(class `ShowQuickCommitDetailsCommand`, method `execute`) from vscode-gitlens.

Modelling choices:
* Commit objects (`GitCommit` / `GitLogCommit`) are the only objects the code
  mutates through shared references (line 128 assigns
  `args.commit.workingFileName` in place), so they live in an explicit heap
  `CommitHeap : Ref → GitCommitObj`; everything else is passed by value.
  The shallow copy `args = { ...args }` (line 73) is modelled by the copy
  semantics of value passing: the caller-supplied `ArgsObj` is never written.
* External collaborators (editor host, git backend, picker UI) are an
  environment of `Except`-valued results; each is called at most once per
  invocation, so constant results plus a recorded call trace are faithful.
* `async`/`await`: a collaborator result `Except.error` models a rejected
  promise.  An awaited rejection inside a `try` is converted by the `catch`
  into a generic error message; a promise returned without `await`
  (`return pick.execute()`, `return commands.executeCommand(...)`) and the
  `await GitUri.fromUri(uri)` on line 68 (outside both `try` blocks)
  propagate rejection to the caller, which the model records as
  `ExecResult.rejected`.
-/

/-- Heap references for commit objects (JS object identity). -/
abbrev Ref := Nat

/-- Embeds the commit fields `execute` reads or writes: `sha`, `repoPath`,
`shortSha`, `fileName`, `isFile`, `isUncommitted`, `workingFileName`
(the only mutable one). -/
structure GitCommitObj where
  sha : String
  repoPath : String
  shortSha : String
  fileName : String
  isFile : Bool
  isUncommitted : Bool
  workingFileName : Option String
deriving Repr, DecidableEq

/-- The commit heap: JS object store for commit objects. -/
abbrev CommitHeap := Ref → GitCommitObj

/-- A `GitLog` batch: its `commits` map (sha → commit object reference) plus
the ref it was fetched for (`fetchedFor` is metadata justifying the fetch;
the code under scrutiny never reads it). -/
structure GitLog where
  fetchedFor : Option String
  commitRefs : List (String × Ref)
deriving Repr, DecidableEq

/-- `log.commits.get(sha)`: lookup of a possibly-undefined sha in the batch. -/
def GitLog.get (log : GitLog) (sha : Option String) : Option Ref :=
  match sha with
  | none => none
  | some s => (log.commitRefs.find? (fun p => p.1 = s)).map (fun p => p.2)

/-- A `GitUri` as produced by `GitUri.fromUri`. -/
structure GitUriV where
  repoPath : Option String
  fsPath : String
deriving Repr, DecidableEq

/-- Command identifiers appearing in the file (`Commands.*`). -/
inductive CommandName where
  | showQuickCommitDetails
  | showQuickCurrentBranchHistory
  | showQuickCommitFileDetails
deriving Repr, DecidableEq

mutual
/-- `ShowQuickCommitDetailsCommandArgs`: the mutable working set of one
invocation (sha, commit reference, cached log batch, showInView flag,
inbound back command). -/
inductive ArgsObj : Type where
  | mk : Option String → Option Ref → Option GitLog → Option Bool →
      Option CommandQuickPickItem → ArgsObj

/-- `CommandQuickPickItem(label/description, command, args)`: a replayable
action value.  Its payload may embed a whole `ArgsObj` (the `currentCommand`
on lines 155-164 stores `[args.commit.toGitUri(), args]`). -/
inductive CommandQuickPickItem : Type where
  | mk : String → String → CommandName → List CmdArg → CommandQuickPickItem

/-- One positional argument of a `CommandQuickPickItem` payload. -/
inductive CmdArg : Type where
  | uri : GitUriV → CmdArg
  | args : ArgsObj → CmdArg
end

def ArgsObj.sha : ArgsObj → Option String
  | .mk s _ _ _ _ => s

def ArgsObj.commit : ArgsObj → Option Ref
  | .mk _ c _ _ _ => c

def ArgsObj.repoLog : ArgsObj → Option GitLog
  | .mk _ _ l _ _ => l

def ArgsObj.showInView : ArgsObj → Option Bool
  | .mk _ _ _ v _ => v

def ArgsObj.goBackCommand : ArgsObj → Option CommandQuickPickItem
  | .mk _ _ _ _ g => g

def ArgsObj.setSha : ArgsObj → Option String → ArgsObj
  | .mk _ c l v g, s => .mk s c l v g

def ArgsObj.setCommit : ArgsObj → Option Ref → ArgsObj
  | .mk s _ l v g, c => .mk s c l v g

def ArgsObj.setRepoLog : ArgsObj → Option GitLog → ArgsObj
  | .mk s c _ v g, l => .mk s c l v g

def ArgsObj.setGoBackCommand : ArgsObj → Option CommandQuickPickItem → ArgsObj
  | .mk s c l v _, g => .mk s c l v g

def CommandQuickPickItem.label : CommandQuickPickItem → String
  | .mk l _ _ _ => l

def CommandQuickPickItem.description : CommandQuickPickItem → String
  | .mk _ d _ _ => d

def CommandQuickPickItem.command : CommandQuickPickItem → CommandName
  | .mk _ _ c _ => c

def CommandQuickPickItem.payload : CommandQuickPickItem → List CmdArg
  | .mk _ _ _ a => a

/-- `GlyphChars.ArrowBack` (external constant; decoration only). -/
def glyphArrowBack : String := "↩"

/-- `GlyphChars.Dash` (external constant; decoration only). -/
def glyphDash : String := "—"

/-- `GlyphChars.Space` (external constant; decoration only). -/
def glyphSpace : String := " "

/-- `Strings.pad(s, before, after)` from the external `system` module:
pads with no-break spaces on both sides (decoration only). -/
def stringsPad (s : String) (before after : Nat) : String :=
  String.mk (List.replicate before ' ') ++ s ++ String.mk (List.replicate after ' ')

/-- The label `go back ↩` used by both back commands (lines 145 and 157). -/
def goBackLabel : String := "go back " ++ glyphArrowBack

/-- Models Node's `paths.relative(base, p)` in the common case where `p`
lies under `base` (external library function; its exact value is
irrelevant to the properties below). -/
def pathsRelative (base p : String) : String :=
  if p.startsWith (base ++ "/") then (p.drop (base.length + 1)) else p

/-- Modelled from the spec: `commit.toGitUri()`, "a URI derived from the
commit" (the external `GitUri.fromCommit`). -/
def toGitUri (c : GitCommitObj) : GitUriV :=
  { repoPath := some c.repoPath, fsPath := c.fileName }

/-- JavaScript string truthiness: `undefined` and `""` are falsy. -/
def truthyStr (s : Option String) : Option String :=
  match s with
  | some str => if str = "" then none else some str
  | none => none

/-- `GitRepoSearchBy` (only `Sha` occurs in this file). -/
inductive GitRepoSearchBy where
  | sha
deriving Repr, DecidableEq

/-- The user-visible messages this command can display (`Messages.*`). -/
inductive MsgKind where
  | fileNotUnderSourceControl
  | lineUncommitted
  | genericError
  | commitNotFound
deriving Repr, DecidableEq

/-- Observable calls `execute` makes to its collaborators, with the
arguments passed, in order. -/
inductive Event where
  | fromUri
  | getBlameForLine (line : Int)
  | getLog (repoPath : Option String) (maxCount : Nat) (ref : Option String)
  | getBranch (repoPath : String)
  | search (repoPath : Option String) (sha : String) (searchBy : GitRepoSearchBy)
  | showPicker (commitRef : Ref) (repoLog : Option GitLog)
      (goBack : Option CommandQuickPickItem)
  | showMessage (m : MsgKind)
  | logError
  | pickExecute
  | executeFileDetails

/-- `blame.commit` reference produced by `getBlameForLine`. -/
structure BlameLineV where
  commitRef : Ref
deriving Repr, DecidableEq

/-- A branch as returned by `Container.git.getBranch`. -/
structure BranchV where
  name : String
deriving Repr, DecidableEq

/-- Rejection payload of a promise (opaque). -/
abbrev Err := String

/-- Raw VS Code `Uri` (opaque to this command). -/
abbrev UriRaw := String

/-- The user's selection in `CommitQuickPick.show`: either some command item
(anything with an `execute()` method) or a `CommitWithFileStatusQuickPickItem`
carrying a file commit and a sha. -/
inductive PickResult where
  | commandItem
  | fileItem (commitRef : Ref) (sha : String)
deriving Repr, DecidableEq

/-- The active editor state `execute` reads: the cursor line
(`editor.selection.active.line`). -/
structure EditorV where
  line : Int
deriving Repr, DecidableEq

/-- Behaviour of the external collaborators during one invocation.  Each is
called at most once by `execute`, so a constant result is fully general;
`Except.error` models a rejected promise / thrown exception. -/
structure Env where
  commandUri : Option UriRaw
  fromUri : Except Err GitUriV
  getBlameForLine : Except Err (Option BlameLineV)
  getLog : Except Err (Option GitLog)
  getBranch : Except Err (Option BranchV)
  search : Except Err Unit
  pick : Except Err (Option PickResult)
  pickExecute : Except Err Unit
  executeFileDetails : Except Err Unit

/-- The arguments object dispatched to `ShowQuickCommitFileDetails`
(lines 177-181). -/
structure FileDetailsArgs where
  commit : Ref
  sha : String
  goBackCommand : CommandQuickPickItem

/-- The value `execute`'s promise resolves to. -/
inductive RetVal where
  | undef
  | message (m : MsgKind)
  | pickExecuted
  | dispatchedFileDetails (uri : GitUriV) (payload : FileDetailsArgs)

/-- Outcome of one invocation: the promise resolves or rejects. -/
inductive ExecResult where
  | resolved (v : RetVal)
  | rejected (e : Err)

/-- `workingFileName` assignment of line 128. -/
def GitCommitObj.setWorkingFileName (c : GitCommitObj) (w : String) : GitCommitObj :=
  { c with workingFileName := some w }

/-- Writing one commit object in the heap. -/
def heapUpdate (h : CommitHeap) (r : Ref) (c : GitCommitObj) : CommitHeap :=
  fun r2 => if r2 = r then c else h r2

/-- Result of the sha-resolution phase when it does not terminate early:
the updated request plus the (possibly re-assigned) `repoPath` and
`workingFileName` locals. -/
structure ResolveOut where
  args : ArgsObj
  repoPath : Option String
  workingFileName : String

/-- Lines 74-101: sha resolution via blame when no sha was supplied.
`Sum.inl` is an early `return`; `Sum.inr` carries the updated request and
the re-assigned `repoPath` / `workingFileName` locals. -/
def resolveSha (env : Env) (editor : Option EditorV) (h : CommitHeap)
    (args : ArgsObj) (repoPath : Option String) (wfn : String) :
    (ExecResult ⊕ ResolveOut) × List Event :=
  match args.sha with
  | some _ => (Sum.inr ⟨args, repoPath, wfn⟩, [])
  | none =>
    match editor with
    | none => (Sum.inl (.resolved .undef), [])
    | some ed =>
      if ed.line < 0 then (Sum.inl (.resolved .undef), [])
      else
        match env.getBlameForLine with
        | .error _ =>
          (Sum.inl (.resolved (.message .genericError)),
           [.getBlameForLine ed.line, .logError, .showMessage .genericError])
        | .ok none =>
          (Sum.inl (.resolved (.message .fileNotUnderSourceControl)),
           [.getBlameForLine ed.line, .showMessage .fileNotUnderSourceControl])
        | .ok (some blame) =>
          let c := h blame.commitRef
          if c.isUncommitted then
            (Sum.inl (.resolved (.message .lineUncommitted)),
             [.getBlameForLine ed.line, .showMessage .lineUncommitted])
          else
            (Sum.inr ⟨(args.setSha (some c.sha)).setCommit (some blame.commitRef),
                      some c.repoPath, c.fileName⟩,
             [.getBlameForLine ed.line])

/-- Line 104's condition: `args.commit === undefined || args.commit.isFile`. -/
def needsLookup (h : CommitHeap) (args : ArgsObj) : Bool :=
  match args.commit with
  | none => true
  | some cr => (h cr).isFile

/-- Lines 104-121: hydrate the commit when it is absent or file-scoped,
first from the cached `repoLog` (dropping the cache when the lookup in it
fails), then from a fresh 2-entry log fetch. -/
def lookupCommit (env : Env) (h : CommitHeap) (args : ArgsObj)
    (repoPath : Option String) : (ExecResult ⊕ ArgsObj) × List Event :=
  if needsLookup h args then
    let argsA :=
      match args.repoLog with
      | none => args
      | some log =>
        match log.get args.sha with
        | some cr => args.setCommit (some cr)
        | none => (args.setCommit none).setRepoLog none
    match argsA.repoLog with
    | some _ => (Sum.inr argsA, [])
    | none =>
      match env.getLog with
      | .error _ =>
        (Sum.inl (.resolved (.message .genericError)),
         [.getLog repoPath 2 args.sha, .logError, .showMessage .genericError])
      | .ok none =>
        (Sum.inl (.resolved (.message .commitNotFound)),
         [.getLog repoPath 2 args.sha, .showMessage .commitNotFound])
      | .ok (some log) =>
        (Sum.inr (argsA.setCommit (log.get args.sha)), [.getLog repoPath 2 args.sha])
  else (Sum.inr args, [])

/-- Lines 154-181: build `currentCommand` (whose payload embeds the live
request object) and run one picker interaction. -/
def pickerPhase (env : Env) (h : CommitHeap) (args : ArgsObj) (cr : Ref) :
    ExecResult × CommitHeap × List Event :=
  let c := h cr
  let currentCommand : CommandQuickPickItem :=
    .mk goBackLabel
      (stringsPad glyphDash 2 3 ++ " to details of " ++ glyphSpace ++
        "$(git-commit) " ++ c.shortSha)
      .showQuickCommitDetails
      [.uri (toGitUri c), .args args]
  match env.pick with
  | .error _ =>
    (.resolved (.message .genericError), h,
     [.showPicker cr args.repoLog args.goBackCommand, .logError,
      .showMessage .genericError])
  | .ok none =>
    (.resolved .undef, h, [.showPicker cr args.repoLog args.goBackCommand])
  | .ok (some .commandItem) =>
    match env.pickExecute with
    | .error e =>
      (.rejected e, h,
       [.showPicker cr args.repoLog args.goBackCommand, .pickExecute])
    | .ok _ =>
      (.resolved .pickExecuted, h,
       [.showPicker cr args.repoLog args.goBackCommand, .pickExecute])
  | .ok (some (.fileItem pcr psha)) =>
    match env.executeFileDetails with
    | .error e =>
      (.rejected e, h,
       [.showPicker cr args.repoLog args.goBackCommand, .executeFileDetails])
    | .ok _ =>
      (.resolved (.dispatchedFileDetails (toGitUri (h pcr))
          ⟨pcr, psha, currentCommand⟩), h,
       [.showPicker cr args.repoLog args.goBackCommand, .executeFileDetails])

/-- The branch-history back command built on lines 143-150. -/
def branchGoBackItem (branchName : String) (c : GitCommitObj) : CommandQuickPickItem :=
  .mk goBackLabel (stringsPad glyphDash 2 3 ++ " to " ++ branchName ++ " history")
    .showQuickCurrentBranchHistory [.uri (toGitUri c)]

/-- Lines 139-152: reuse the inbound back command verbatim, or build one
from the branch lookup when a branch exists. -/
def goBackPhase (env : Env) (h : CommitHeap) (args : ArgsObj) (cr : Ref) :
    ExecResult × CommitHeap × List Event :=
  match args.goBackCommand with
  | some _ => pickerPhase env h args cr
  | none =>
    let c := h cr
    match env.getBranch with
    | .error _ =>
      (.resolved (.message .genericError), h,
       [.getBranch c.repoPath, .logError, .showMessage .genericError])
    | .ok none =>
      let out := pickerPhase env h args cr
      (out.1, out.2.1, .getBranch c.repoPath :: out.2.2)
    | .ok (some br) =>
      let out := pickerPhase env h
        (args.setGoBackCommand (some (branchGoBackItem br.name c))) cr
      (out.1, out.2.1, .getBranch c.repoPath :: out.2.2)

/-- Lines 127-129: `if (args.commit.workingFileName === undefined)
args.commit.workingFileName = workingFileName;` — the single in-place
object mutation `execute` performs. -/
def wfnDefault (h : CommitHeap) (cr : Ref) (wfn : String) : CommitHeap :=
  if (h cr).workingFileName = none then
    heapUpdate h cr ((h cr).setWorkingFileName wfn)
  else h

/-- Lines 127-137 plus the rest of the `try` block: default the commit's
`workingFileName` in place (the single heap write), short-circuit to the
search view when `showInView` is truthy, else continue with the back
commands and the picker. -/
def afterResolve (env : Env) (h : CommitHeap) (args : ArgsObj) (cr : Ref)
    (repoPath : Option String) (wfn : String) :
    ExecResult × CommitHeap × List Event :=
  let h1 := wfnDefault h cr wfn
  let c := h1 cr
  if args.showInView = some true then
    match env.search with
    | .error _ =>
      (.resolved (.message .genericError), h1,
       [.search repoPath c.sha .sha, .logError, .showMessage .genericError])
    | .ok _ => (.resolved .undef, h1, [.search repoPath c.sha .sha])
  else goBackPhase env h1 args cr

/-- Lines 103-186: the outer `try` block. -/
def mainPhase (env : Env) (h : CommitHeap) (args : ArgsObj)
    (repoPath : Option String) (wfn : String) :
    ExecResult × CommitHeap × List Event :=
  match lookupCommit env h args repoPath with
  | (Sum.inl r, tr) => (r, h, tr)
  | (Sum.inr args2, tr) =>
    match args2.commit with
    | none =>
      (.resolved (.message .commitNotFound), h,
       tr ++ [.showMessage .commitNotFound])
    | some cr =>
      let out := afterResolve env h args2 cr repoPath wfn
      (out.1, out.2.1, tr ++ out.2.2)

/-- Line 71: `repoPath ? paths.relative(repoPath, gitUri.fsPath) :
gitUri.fsPath` (`repoPath` is truthy when present and non-empty). -/
def initialWfn (gitUri : GitUriV) : String :=
  match truthyStr gitUri.repoPath with
  | some rp => pathsRelative rp gitUri.fsPath
  | none => gitUri.fsPath

/-- Lines 64-187: `ShowQuickCommitDetailsCommand.execute`.  Returns the
outcome of the promise, the final commit heap and the trace of collaborator
calls. -/
def execute (env : Env) (editor : Option EditorV) (args0 : ArgsObj)
    (h0 : CommitHeap) : ExecResult × CommitHeap × List Event :=
  match env.commandUri with
  | none => (.resolved .undef, h0, [])
  | some _ =>
    match env.fromUri with
    | .error e => (.rejected e, h0, [.fromUri])
    | .ok gitUri =>
      let repoPath := gitUri.repoPath
      match resolveSha env editor h0 args0 repoPath (initialWfn gitUri) with
      | (Sum.inl r, tr) => (r, h0, .fromUri :: tr)
      | (Sum.inr out, tr) =>
        let out2 := mainPhase env h0 out.args out.repoPath out.workingFileName
        (out2.1, out2.2.1, .fromUri :: (tr ++ out2.2.2))

@[simp] theorem ArgsObj.sha_mk (s c l v g) : (ArgsObj.mk s c l v g).sha = s := rfl

@[simp] theorem ArgsObj.commit_mk (s c l v g) : (ArgsObj.mk s c l v g).commit = c := rfl

@[simp] theorem ArgsObj.repoLog_mk (s c l v g) : (ArgsObj.mk s c l v g).repoLog = l := rfl

@[simp] theorem ArgsObj.showInView_mk (s c l v g) : (ArgsObj.mk s c l v g).showInView = v := rfl

@[simp] theorem ArgsObj.goBackCommand_mk (s c l v g) :
    (ArgsObj.mk s c l v g).goBackCommand = g := rfl

@[simp] theorem ArgsObj.setSha_sha (a : ArgsObj) (s : Option String) : (a.setSha s).sha = s := by
  cases a; rfl

@[simp] theorem ArgsObj.setSha_commit (a : ArgsObj) (s : Option String) : (a.setSha s).commit = a.commit := by
  cases a; rfl

@[simp] theorem ArgsObj.setSha_repoLog (a : ArgsObj) (s : Option String) : (a.setSha s).repoLog = a.repoLog := by
  cases a; rfl

@[simp] theorem ArgsObj.setSha_showInView (a : ArgsObj) (s : Option String) : (a.setSha s).showInView = a.showInView := by
  cases a; rfl

@[simp] theorem ArgsObj.setSha_goBackCommand (a : ArgsObj) (s : Option String) :
    (a.setSha s).goBackCommand = a.goBackCommand := by
  cases a; rfl

@[simp] theorem ArgsObj.setCommit_sha (a : ArgsObj) (c : Option Ref) : (a.setCommit c).sha = a.sha := by
  cases a; rfl

@[simp] theorem ArgsObj.setCommit_commit (a : ArgsObj) (c : Option Ref) : (a.setCommit c).commit = c := by
  cases a; rfl

@[simp] theorem ArgsObj.setCommit_repoLog (a : ArgsObj) (c : Option Ref) : (a.setCommit c).repoLog = a.repoLog := by
  cases a; rfl

@[simp] theorem ArgsObj.setCommit_showInView (a : ArgsObj) (c : Option Ref) :
    (a.setCommit c).showInView = a.showInView := by
  cases a; rfl

@[simp] theorem ArgsObj.setCommit_goBackCommand (a : ArgsObj) (c : Option Ref) :
    (a.setCommit c).goBackCommand = a.goBackCommand := by
  cases a; rfl

@[simp] theorem ArgsObj.setRepoLog_sha (a : ArgsObj) (l : Option GitLog) : (a.setRepoLog l).sha = a.sha := by
  cases a; rfl

@[simp] theorem ArgsObj.setRepoLog_commit (a : ArgsObj) (l : Option GitLog) : (a.setRepoLog l).commit = a.commit := by
  cases a; rfl

@[simp] theorem ArgsObj.setRepoLog_repoLog (a : ArgsObj) (l : Option GitLog) : (a.setRepoLog l).repoLog = l := by
  cases a; rfl

@[simp] theorem ArgsObj.setRepoLog_showInView (a : ArgsObj) (l : Option GitLog) :
    (a.setRepoLog l).showInView = a.showInView := by
  cases a; rfl

@[simp] theorem ArgsObj.setRepoLog_goBackCommand (a : ArgsObj) (l : Option GitLog) :
    (a.setRepoLog l).goBackCommand = a.goBackCommand := by
  cases a; rfl

@[simp] theorem ArgsObj.setGoBackCommand_sha (a : ArgsObj) (g : Option CommandQuickPickItem) : (a.setGoBackCommand g).sha = a.sha := by
  cases a; rfl

@[simp] theorem ArgsObj.setGoBackCommand_commit (a : ArgsObj) (g : Option CommandQuickPickItem) :
    (a.setGoBackCommand g).commit = a.commit := by
  cases a; rfl

@[simp] theorem ArgsObj.setGoBackCommand_repoLog (a : ArgsObj) (g : Option CommandQuickPickItem) :
    (a.setGoBackCommand g).repoLog = a.repoLog := by
  cases a; rfl

@[simp] theorem ArgsObj.setGoBackCommand_showInView (a : ArgsObj) (g : Option CommandQuickPickItem) :
    (a.setGoBackCommand g).showInView = a.showInView := by
  cases a; rfl

@[simp] theorem ArgsObj.setGoBackCommand_goBackCommand (a : ArgsObj) (g : Option CommandQuickPickItem) :
    (a.setGoBackCommand g).goBackCommand = g := by
  cases a; rfl

theorem wfnDefault_of_isSome (h : CommitHeap) (cr : Ref) (wfn : String) (r : Ref)
    (hr : (h r).workingFileName.isSome = true) : wfnDefault h cr wfn r = h r := by
  unfold wfnDefault
  by_cases hc : (h cr).workingFileName = none
  · simp only [if_pos hc, heapUpdate]
    by_cases he : r = cr
    · subst he; rw [hc] at hr; simp at hr
    · simp [he]
  · simp [hc]

theorem wfnDefault_ne (h : CommitHeap) (cr : Ref) (wfn : String) (r : Ref)
    (hr : r ≠ cr) : wfnDefault h cr wfn r = h r := by
  unfold wfnDefault
  by_cases hc : (h cr).workingFileName = none
  · simp [hc, heapUpdate, hr]
  · simp [hc]

theorem wfnDefault_at_isSome (h : CommitHeap) (cr : Ref) (wfn : String) :
    ((wfnDefault h cr wfn) cr).workingFileName.isSome = true := by
  unfold wfnDefault
  by_cases hc : (h cr).workingFileName = none
  · simp [hc, heapUpdate, GitCommitObj.setWorkingFileName]
  · simp [hc, Option.isSome_iff_ne_none]

theorem wfnDefault_at_none (h : CommitHeap) (cr : Ref) (wfn : String)
    (hc : (h cr).workingFileName = none) :
    wfnDefault h cr wfn cr = (h cr).setWorkingFileName wfn := by
  simp [wfnDefault, hc, heapUpdate]

theorem wfnDefault_sha (h : CommitHeap) (cr : Ref) (wfn : String) :
    ((wfnDefault h cr wfn) cr).sha = (h cr).sha := by
  unfold wfnDefault
  by_cases hc : (h cr).workingFileName = none <;>
    simp [hc, heapUpdate, GitCommitObj.setWorkingFileName]

theorem pickerPhase_heap (env : Env) (h : CommitHeap) (args : ArgsObj) (cr : Ref) :
    (pickerPhase env h args cr).2.1 = h := by
  unfold pickerPhase
  rcases env.pick with e | op
  · rfl
  · rcases op with _ | pr
    · rfl
    · rcases pr with _ | ⟨pcr, psha⟩
      · rcases env.pickExecute with e | u <;> rfl
      · rcases env.executeFileDetails with e | u <;> rfl

theorem goBackPhase_heap (env : Env) (h : CommitHeap) (args : ArgsObj) (cr : Ref) :
    (goBackPhase env h args cr).2.1 = h := by
  unfold goBackPhase
  rcases args.goBackCommand with _ | gb
  · rcases env.getBranch with e | ob
    · rfl
    · rcases ob with _ | br <;> simp [pickerPhase_heap]
  · simp [pickerPhase_heap]

theorem afterResolve_heap (env : Env) (h : CommitHeap) (args : ArgsObj) (cr : Ref)
    (repoPath : Option String) (wfn : String) :
    (afterResolve env h args cr repoPath wfn).2.1 = wfnDefault h cr wfn := by
  unfold afterResolve
  by_cases hv : args.showInView = some true
  · simp only [if_pos hv]
    rcases env.search with e | u <;> rfl
  · simp only [if_neg hv]
    exact goBackPhase_heap env (wfnDefault h cr wfn) args cr

/-- Is this event a `Container.git.getLog` call? -/
def Event.isGetLog : Event → Bool
  | .getLog _ _ _ => true
  | _ => false

/-- Is this event a `Container.git.getBranch` call? -/
def Event.isGetBranch : Event → Bool
  | .getBranch _ => true
  | _ => false

/-- Is this event a `CommitQuickPick.show` call? -/
def Event.isShowPicker : Event → Bool
  | .showPicker _ _ _ => true
  | _ => false

/-- Is this event a displayed user-facing message? -/
def Event.isShowMessage : Event → Bool
  | .showMessage _ => true
  | _ => false

/-- Is this event a `searchView.search` call? -/
def Event.isSearch : Event → Bool
  | .search _ _ _ => true
  | _ => false

/-- Is this event a `getBlameForLine` call? -/
def Event.isGetBlame : Event → Bool
  | .getBlameForLine _ => true
  | _ => false

theorem resolveSha_of_sha (env : Env) (editor : Option EditorV) (h : CommitHeap)
    (args : ArgsObj) (repoPath : Option String) (wfn : String) (s : String)
    (hs : args.sha = some s) :
    resolveSha env editor h args repoPath wfn = (Sum.inr ⟨args, repoPath, wfn⟩, []) := by
  unfold resolveSha
  rw [hs]

theorem pickerPhase_trace (env : Env) (h : CommitHeap) (args : ArgsObj) (cr : Ref) :
    (pickerPhase env h args cr).2.2 =
      Event.showPicker cr args.repoLog args.goBackCommand ::
        (match env.pick with
         | .error _ => [Event.logError, Event.showMessage .genericError]
         | .ok none => []
         | .ok (some .commandItem) => [Event.pickExecute]
         | .ok (some (.fileItem _ _)) => [Event.executeFileDetails]) := by
  unfold pickerPhase
  rcases env.pick with x | op
  · rfl
  · rcases op with _ | pr
    · rfl
    · rcases pr with _ | ⟨pcr, psha⟩
      · rcases env.pickExecute with x | u <;> rfl
      · rcases env.executeFileDetails with x | u <;> rfl

theorem pickerPhase_trace_mem (env : Env) (h : CommitHeap) (args : ArgsObj) (cr : Ref)
    (e : Event) (he : e ∈ (pickerPhase env h args cr).2.2) :
    e = Event.showPicker cr args.repoLog args.goBackCommand ∨ e = Event.logError ∨
      (∃ m, e = Event.showMessage m) ∨ e = Event.pickExecute ∨
      e = Event.executeFileDetails := by
  rw [pickerPhase_trace] at he
  simp only [List.mem_cons] at he
  rcases he with h1 | h1
  · exact Or.inl h1
  · rcases hp : env.pick with x | op
    · rw [hp] at h1
      simp at h1
      rcases h1 with h1 | h1 <;> simp [h1]
    · rcases op with _ | pr
      · rw [hp] at h1
        simp at h1
      · rcases pr with _ | ⟨pcr, psha⟩ <;>
          · rw [hp] at h1
            simp at h1
            simp [h1]

theorem goBackPhase_of_some (env : Env) (h : CommitHeap) (args : ArgsObj) (cr : Ref)
    (gb : CommandQuickPickItem) (hgb : args.goBackCommand = some gb) :
    goBackPhase env h args cr = pickerPhase env h args cr := by
  unfold goBackPhase
  rw [hgb]

theorem goBackPhase_of_none (env : Env) (h : CommitHeap) (args : ArgsObj) (cr : Ref)
    (hgb : args.goBackCommand = none) :
    goBackPhase env h args cr =
      match env.getBranch with
      | .error _ =>
        (.resolved (.message .genericError), h,
         [.getBranch (h cr).repoPath, .logError, .showMessage .genericError])
      | .ok none =>
        ((pickerPhase env h args cr).1, (pickerPhase env h args cr).2.1,
         .getBranch (h cr).repoPath :: (pickerPhase env h args cr).2.2)
      | .ok (some br) =>
        ((pickerPhase env h
            (args.setGoBackCommand (some (branchGoBackItem br.name (h cr)))) cr).1,
         (pickerPhase env h
            (args.setGoBackCommand (some (branchGoBackItem br.name (h cr)))) cr).2.1,
         .getBranch (h cr).repoPath ::
           (pickerPhase env h
              (args.setGoBackCommand (some (branchGoBackItem br.name (h cr)))) cr).2.2) := by
  unfold goBackPhase
  rw [hgb]

theorem afterResolve_of_view (env : Env) (h : CommitHeap) (args : ArgsObj) (cr : Ref)
    (repoPath : Option String) (wfn : String) (hv : args.showInView = some true) :
    afterResolve env h args cr repoPath wfn =
      match env.search with
      | .error _ =>
        (.resolved (.message .genericError), wfnDefault h cr wfn,
         [.search repoPath ((wfnDefault h cr wfn) cr).sha .sha, .logError,
          .showMessage .genericError])
      | .ok _ =>
        (.resolved .undef, wfnDefault h cr wfn,
         [.search repoPath ((wfnDefault h cr wfn) cr).sha .sha]) := by
  unfold afterResolve
  rw [hv]
  simp

theorem afterResolve_not_view (env : Env) (h : CommitHeap) (args : ArgsObj) (cr : Ref)
    (repoPath : Option String) (wfn : String) (hv : ¬ args.showInView = some true) :
    afterResolve env h args cr repoPath wfn =
      goBackPhase env (wfnDefault h cr wfn) args cr := by
  unfold afterResolve
  rw [if_neg hv]

theorem lookupCommit_skip (env : Env) (h : CommitHeap) (args : ArgsObj)
    (repoPath : Option String) (hn : needsLookup h args = false) :
    lookupCommit env h args repoPath = (Sum.inr args, []) := by
  unfold lookupCommit
  simp [hn]

/-- A commit heap for concrete witnesses: ref 0 is a full commit, ref 1 a
second full commit, ref 2 a file-scoped commit, ref 3 an uncommitted one. -/
def baseHeap : CommitHeap := fun r =>
  if r = 0 then ⟨"c0sha", "/repo", "c0s", "a.ts", false, false, none⟩
  else if r = 1 then ⟨"c1sha", "/repo", "c1s", "b.ts", false, false, none⟩
  else if r = 2 then ⟨"c2sha", "/repo", "c2s", "c.ts", true, false, none⟩
  else ⟨"c3sha", "/repo", "c3s", "d.ts", false, true, none⟩

/-- The `GitUri` used by concrete witnesses. -/
def baseGitUri : GitUriV := ⟨some "/repo", "/repo/a.ts"⟩

/-- A benign collaborator environment for concrete witnesses. -/
def baseEnv : Env :=
  { commandUri := some "file:///repo/a.ts"
    fromUri := .ok baseGitUri
    getBlameForLine := .ok none
    getLog := .ok none
    getBranch := .ok none
    search := .ok ()
    pick := .ok none
    pickExecute := .ok ()
    executeFileDetails := .ok () }

/-- C8: a request without a revision id, invoked with no active editor or a
negative cursor line, terminates silently: the promise resolves to
`undefined` and no message, picker, or version-control query happens (the
trace is at most the editor-host URI resolution). -/
theorem no_sha_no_editor_noop (env : Env) (editor : Option EditorV) (args0 : ArgsObj)
    (h0 : CommitHeap) (g : GitUriV)
    (hsha : args0.sha = none) (hfu : env.fromUri = .ok g)
    (hed : editor = none ∨ ∃ ed, editor = some ed ∧ ed.line < 0) :
    (execute env editor args0 h0).1 = .resolved .undef ∧
      ((execute env editor args0 h0).2.2 = [] ∨
        (execute env editor args0 h0).2.2 = [Event.fromUri]) := by
  rcases hcu : env.commandUri with _ | u
  · simp only [execute, hcu]
    exact ⟨trivial, Or.inl trivial⟩
  · rcases hed with rfl | ⟨ed, rfl, hlt⟩
    · simp only [execute, hcu, hfu, resolveSha, hsha]
      exact ⟨trivial, Or.inr trivial⟩
    · simp only [execute, hcu, hfu, resolveSha, hsha, if_pos hlt]
      exact ⟨trivial, Or.inr trivial⟩

/-- Witness for C8 at a concrete input (no editor, no sha). -/
theorem no_sha_no_editor_noop_witness :
    (execute baseEnv none (ArgsObj.mk none none none none none) baseHeap).1 =
        .resolved .undef ∧
      ((execute baseEnv none (ArgsObj.mk none none none none none) baseHeap).2.2 = [] ∨
        (execute baseEnv none (ArgsObj.mk none none none none none) baseHeap).2.2 =
          [Event.fromUri]) :=
  no_sha_no_editor_noop baseEnv none (ArgsObj.mk none none none none none) baseHeap
    baseGitUri rfl rfl (Or.inl rfl)

/-- C9: a request without a revision id whose blame lookup returns the
uncommitted placeholder commit emits exactly the "line uncommitted"
warning and terminates; no picker is ever shown. -/
theorem uncommitted_line_warning (env : Env) (args0 : ArgsObj) (h0 : CommitHeap)
    (u : UriRaw) (g : GitUriV) (ed : EditorV) (b : BlameLineV)
    (hsha : args0.sha = none) (hcu : env.commandUri = some u)
    (hfu : env.fromUri = .ok g) (hline : ¬ ed.line < 0)
    (hb : env.getBlameForLine = .ok (some b))
    (hunc : (h0 b.commitRef).isUncommitted = true) :
    execute env (some ed) args0 h0 =
      (.resolved (.message .lineUncommitted), h0,
       [Event.fromUri, Event.getBlameForLine ed.line,
        Event.showMessage .lineUncommitted]) := by
  simp only [execute, hcu, hfu, resolveSha, hsha, if_neg hline, hb, hunc, if_pos]

/-- Witness for C9 at a concrete input (blame maps the line to the
uncommitted commit at ref 3). -/
theorem uncommitted_line_warning_witness :
    execute { baseEnv with getBlameForLine := .ok (some ⟨3⟩) } (some ⟨10⟩)
        (ArgsObj.mk none none none none none) baseHeap =
      (.resolved (.message .lineUncommitted), baseHeap,
       [Event.fromUri, Event.getBlameForLine 10,
        Event.showMessage .lineUncommitted]) :=
  uncommitted_line_warning { baseEnv with getBlameForLine := .ok (some ⟨3⟩) }
    (ArgsObj.mk none none none none none) baseHeap "file:///repo/a.ts" baseGitUri
    ⟨10⟩ ⟨3⟩ rfl rfl rfl (by decide) rfl (by decide)

theorem execute_of_sha (env : Env) (editor : Option EditorV) (args0 : ArgsObj)
    (h0 : CommitHeap) (u : UriRaw) (g : GitUriV) (s : String)
    (hcu : env.commandUri = some u) (hfu : env.fromUri = .ok g)
    (hsha : args0.sha = some s) :
    execute env editor args0 h0 =
      ((mainPhase env h0 args0 g.repoPath (initialWfn g)).1,
       (mainPhase env h0 args0 g.repoPath (initialWfn g)).2.1,
       Event.fromUri :: (mainPhase env h0 args0 g.repoPath (initialWfn g)).2.2) := by
  simp only [execute, hcu, hfu]
  rw [resolveSha_of_sha env editor h0 args0 g.repoPath (initialWfn g) s hsha]
  rfl

theorem mainPhase_skip (env : Env) (h : CommitHeap) (args : ArgsObj)
    (repoPath : Option String) (wfn : String) (cr : Ref)
    (hc : args.commit = some cr) (hf : (h cr).isFile = false) :
    mainPhase env h args repoPath wfn = afterResolve env h args cr repoPath wfn := by
  have hn : needsLookup h args = false := by simp [needsLookup, hc, hf]
  unfold mainPhase
  simp only [lookupCommit_skip env h args repoPath hn, hc]
  rfl

theorem pickerPhase_no_getLog (env : Env) (h : CommitHeap) (args : ArgsObj) (cr : Ref) :
    ∀ e ∈ (pickerPhase env h args cr).2.2, e.isGetLog = false := by
  intro e he
  rcases pickerPhase_trace_mem env h args cr e he with h1 | h1 | ⟨m, h1⟩ | h1 | h1 <;>
    simp [h1, Event.isGetLog]

theorem goBackPhase_no_getLog (env : Env) (h : CommitHeap) (args : ArgsObj) (cr : Ref) :
    ∀ e ∈ (goBackPhase env h args cr).2.2, e.isGetLog = false := by
  rcases hgb : args.goBackCommand with _ | gb
  · rw [goBackPhase_of_none env h args cr hgb]
    rcases env.getBranch with x | ob
    · simp [Event.isGetLog]
    · rcases ob with _ | br <;>
        · intro e he
          simp only [List.mem_cons] at he
          rcases he with rfl | he
          · rfl
          · exact pickerPhase_no_getLog _ _ _ _ e he
  · rw [goBackPhase_of_some env h args cr gb hgb]
    exact pickerPhase_no_getLog _ _ _ _

theorem afterResolve_no_getLog (env : Env) (h : CommitHeap) (args : ArgsObj) (cr : Ref)
    (repoPath : Option String) (wfn : String) :
    ∀ e ∈ (afterResolve env h args cr repoPath wfn).2.2, e.isGetLog = false := by
  by_cases hv : args.showInView = some true
  · rw [afterResolve_of_view env h args cr repoPath wfn hv]
    rcases env.search with x | un <;> simp [Event.isGetLog]
  · rw [afterResolve_not_view env h args cr repoPath wfn hv]
    exact goBackPhase_no_getLog _ _ _ _

/-- C7: an invocation supplying an explicit full (non-file-scoped) commit
(with its revision id, as every re-invocation payload does) and no cached
log batch never issues a log fetch: no `getLog` call appears in the trace,
under any collaborator behaviour. -/
theorem full_commit_no_log_fetch (env : Env) (editor : Option EditorV)
    (args0 : ArgsObj) (h0 : CommitHeap) (s : String) (cr : Ref)
    (hsha : args0.sha = some s) (hcm : args0.commit = some cr)
    (hfile : (h0 cr).isFile = false) (hlog : args0.repoLog = none) :
    ∀ e ∈ (execute env editor args0 h0).2.2, e.isGetLog = false := by
  intro e he
  rcases hcu : env.commandUri with _ | u
  · simp only [execute, hcu] at he
    simp at he
  · rcases hfu : env.fromUri with x | g
    · simp only [execute, hcu, hfu] at he
      simp at he
      simp [he, Event.isGetLog]
    · rw [execute_of_sha env editor args0 h0 u g s hcu hfu hsha,
          mainPhase_skip env h0 args0 g.repoPath (initialWfn g) cr hcm hfile] at he
      simp only [List.mem_cons] at he
      rcases he with rfl | he
      · rfl
      · exact afterResolve_no_getLog _ _ _ _ _ _ e he

/-- Witness for C7: a full commit (ref 0) with its sha and no cached log;
the trace of the concrete run stays free of `getLog`. -/
theorem full_commit_no_log_fetch_witness :
    ((execute baseEnv none (ArgsObj.mk (some "c0sha") (some 0) none none none)
        baseHeap).2.2.all (fun e => !e.isGetLog)) = true :=
  List.all_eq_true.mpr (fun e he => by
    simp [full_commit_no_log_fetch baseEnv none
      (ArgsObj.mk (some "c0sha") (some 0) none none none) baseHeap "c0sha" 0
      rfl rfl rfl rfl e he])

/-- C6: with `showInView` set, a supplied revision id and a resolved
(non-file-scoped) commit, the commit is routed to the persistent search
view keyed by `(repoPath, sha, search-by-sha)`, no picker is ever shown,
and the promise resolves to `undefined`. -/
theorem show_in_view_routes_to_search (env : Env) (editor : Option EditorV)
    (args0 : ArgsObj) (h0 : CommitHeap) (u : UriRaw) (g : GitUriV) (s : String)
    (cr : Ref)
    (hcu : env.commandUri = some u) (hfu : env.fromUri = .ok g)
    (hsha : args0.sha = some s) (hcm : args0.commit = some cr)
    (hfile : (h0 cr).isFile = false) (hview : args0.showInView = some true)
    (hsearch : env.search = .ok ()) :
    execute env editor args0 h0 =
      (.resolved .undef, wfnDefault h0 cr (initialWfn g),
       [Event.fromUri, Event.search g.repoPath ((h0 cr).sha) .sha]) := by
  rw [execute_of_sha env editor args0 h0 u g s hcu hfu hsha,
      mainPhase_skip env h0 args0 g.repoPath (initialWfn g) cr hcm hfile,
      afterResolve_of_view env h0 args0 cr g.repoPath (initialWfn g) hview, hsearch,
      wfnDefault_sha]

/-- Witness for C6 at a concrete input (commit ref 0, `showInView = true`). -/
theorem show_in_view_routes_to_search_witness :
    execute baseEnv none
        (ArgsObj.mk (some "c0sha") (some 0) none (some true) none) baseHeap =
      (.resolved .undef, wfnDefault baseHeap 0 (initialWfn baseGitUri),
       [Event.fromUri,
        Event.search baseGitUri.repoPath ((baseHeap 0).sha) .sha]) :=
  show_in_view_routes_to_search baseEnv none
    (ArgsObj.mk (some "c0sha") (some 0) none (some true) none) baseHeap
    "file:///repo/a.ts" baseGitUri "c0sha" 0 rfl rfl rfl rfl rfl rfl rfl

theorem lookupCommit_no_cache (env : Env) (h : CommitHeap) (args : ArgsObj)
    (repoPath : Option String) (hn : needsLookup h args = true)
    (hl : args.repoLog = none) :
    lookupCommit env h args repoPath =
      match env.getLog with
      | .error _ =>
        (Sum.inl (.resolved (.message .genericError)),
         [.getLog repoPath 2 args.sha, .logError, .showMessage .genericError])
      | .ok none =>
        (Sum.inl (.resolved (.message .commitNotFound)),
         [.getLog repoPath 2 args.sha, .showMessage .commitNotFound])
      | .ok (some log) =>
        (Sum.inr (args.setCommit (log.get args.sha)), [.getLog repoPath 2 args.sha]) := by
  unfold lookupCommit
  simp only [hn, hl, if_true]

theorem mainPhase_no_cache (env : Env) (h : CommitHeap) (args : ArgsObj)
    (repoPath : Option String) (wfn : String)
    (hn : needsLookup h args = true) (hl : args.repoLog = none) :
    mainPhase env h args repoPath wfn =
      match env.getLog with
      | .error _ =>
        (.resolved (.message .genericError), h,
         [.getLog repoPath 2 args.sha, .logError, .showMessage .genericError])
      | .ok none =>
        (.resolved (.message .commitNotFound), h,
         [.getLog repoPath 2 args.sha, .showMessage .commitNotFound])
      | .ok (some log) =>
        match log.get args.sha with
        | none =>
          (.resolved (.message .commitNotFound), h,
           [.getLog repoPath 2 args.sha, .showMessage .commitNotFound])
        | some cr =>
          ((afterResolve env h (args.setCommit (some cr)) cr repoPath wfn).1,
           (afterResolve env h (args.setCommit (some cr)) cr repoPath wfn).2.1,
           .getLog repoPath 2 args.sha ::
             (afterResolve env h (args.setCommit (some cr)) cr repoPath wfn).2.2) := by
  unfold mainPhase
  rw [lookupCommit_no_cache env h args repoPath hn hl]
  rcases env.getLog with x | ol
  · rfl
  · rcases ol with _ | log
    · rfl
    · simp only [ArgsObj.setCommit_commit]
      rcases hg : log.get args.sha with _ | cr <;> simp [hg]

/-- C5: a request supplying a revision id (`deadbeef`) directly, with no
commit and no cached log batch, always issues a log fetch limited to 2
entries anchored at `deadbeef`; when the fetch returns no batch, or a batch
not containing `deadbeef`, the "commit not found" warning is shown and no
picker appears (the whole run is the fetch plus the warning). -/
theorem sha_direct_log_fetch (env : Env) (editor : Option EditorV) (args0 : ArgsObj)
    (h0 : CommitHeap) (u : UriRaw) (g : GitUriV)
    (hcu : env.commandUri = some u) (hfu : env.fromUri = .ok g)
    (hsha : args0.sha = some "deadbeef") (hcm : args0.commit = none)
    (hlog : args0.repoLog = none) :
    Event.getLog g.repoPath 2 (some "deadbeef") ∈ (execute env editor args0 h0).2.2 ∧
      ((env.getLog = .ok none ∨
          ∃ log, env.getLog = .ok (some log) ∧ log.get (some "deadbeef") = none) →
        execute env editor args0 h0 =
          (.resolved (.message .commitNotFound), h0,
           [Event.fromUri, Event.getLog g.repoPath 2 (some "deadbeef"),
            Event.showMessage .commitNotFound])) := by
  have hn : needsLookup h0 args0 = true := by simp [needsLookup, hcm]
  rw [execute_of_sha env editor args0 h0 u g "deadbeef" hcu hfu hsha,
      mainPhase_no_cache env h0 args0 g.repoPath (initialWfn g) hn hlog, hsha]
  constructor
  · rcases env.getLog with x | ol
    · simp
    · rcases ol with _ | log
      · simp
      · rcases hg : log.get (some "deadbeef") with _ | cr <;> simp [hg]
  · intro hcase
    rcases hcase with hnone | ⟨log, hsome, hmiss⟩
    · simp [hnone]
    · simp [hsome, hmiss]

/-- Witness for C5: `deadbeef` with an empty backend (`getLog` returns no
batch): the 2-entry anchored fetch happens and the warning is shown. -/
theorem sha_direct_log_fetch_witness :
    Event.getLog baseGitUri.repoPath 2 (some "deadbeef") ∈
        (execute baseEnv none (ArgsObj.mk (some "deadbeef") none none none none)
          baseHeap).2.2 ∧
      ((baseEnv.getLog = .ok none ∨
          ∃ log, baseEnv.getLog = .ok (some log) ∧ log.get (some "deadbeef") = none) →
        execute baseEnv none (ArgsObj.mk (some "deadbeef") none none none none)
            baseHeap =
          (.resolved (.message .commitNotFound), baseHeap,
           [Event.fromUri, Event.getLog baseGitUri.repoPath 2 (some "deadbeef"),
            Event.showMessage .commitNotFound])) :=
  sha_direct_log_fetch baseEnv none
    (ArgsObj.mk (some "deadbeef") none none none none) baseHeap
    "file:///repo/a.ts" baseGitUri rfl rfl rfl rfl rfl

theorem pickerPhase_resolves (env : Env) (h : CommitHeap) (args : ArgsObj) (cr : Ref)
    (hpe : env.pickExecute = .ok ()) (hefd : env.executeFileDetails = .ok ()) :
    ∃ v, (pickerPhase env h args cr).1 = .resolved v := by
  unfold pickerPhase
  rcases env.pick with x | op
  · exact ⟨_, rfl⟩
  · rcases op with _ | pr
    · exact ⟨_, rfl⟩
    · rcases pr with _ | ⟨pcr, psha⟩
      · simp only [hpe]
        exact ⟨_, rfl⟩
      · simp only [hefd]
        exact ⟨_, rfl⟩

theorem goBackPhase_resolves (env : Env) (h : CommitHeap) (args : ArgsObj) (cr : Ref)
    (hpe : env.pickExecute = .ok ()) (hefd : env.executeFileDetails = .ok ()) :
    ∃ v, (goBackPhase env h args cr).1 = .resolved v := by
  rcases hgb : args.goBackCommand with _ | gb
  · rw [goBackPhase_of_none env h args cr hgb]
    rcases env.getBranch with x | ob
    · exact ⟨_, rfl⟩
    · rcases ob with _ | br <;> exact pickerPhase_resolves _ _ _ _ hpe hefd
  · rw [goBackPhase_of_some env h args cr gb hgb]
    exact pickerPhase_resolves _ _ _ _ hpe hefd

theorem afterResolve_resolves (env : Env) (h : CommitHeap) (args : ArgsObj) (cr : Ref)
    (repoPath : Option String) (wfn : String)
    (hpe : env.pickExecute = .ok ()) (hefd : env.executeFileDetails = .ok ()) :
    ∃ v, (afterResolve env h args cr repoPath wfn).1 = .resolved v := by
  by_cases hv : args.showInView = some true
  · rw [afterResolve_of_view env h args cr repoPath wfn hv]
    rcases env.search with x | un <;> exact ⟨_, rfl⟩
  · rw [afterResolve_not_view env h args cr repoPath wfn hv]
    exact goBackPhase_resolves _ _ _ _ hpe hefd

theorem lookupCommit_cached (env : Env) (h : CommitHeap) (args : ArgsObj)
    (repoPath : Option String) (log : GitLog)
    (hn : needsLookup h args = true) (hl : args.repoLog = some log) :
    lookupCommit env h args repoPath =
      match log.get args.sha with
      | some cr => (Sum.inr (args.setCommit (some cr)), [])
      | none =>
        match env.getLog with
        | .error _ =>
          (Sum.inl (.resolved (.message .genericError)),
           [.getLog repoPath 2 args.sha, .logError, .showMessage .genericError])
        | .ok none =>
          (Sum.inl (.resolved (.message .commitNotFound)),
           [.getLog repoPath 2 args.sha, .showMessage .commitNotFound])
        | .ok (some log2) =>
          (Sum.inr (((args.setCommit none).setRepoLog none).setCommit
              (log2.get args.sha)),
           [.getLog repoPath 2 args.sha]) := by
  unfold lookupCommit
  simp only [hn, hl, if_true]
  rcases hg : log.get args.sha with _ | cr
  · simp only [hg, ArgsObj.setRepoLog_repoLog]
  · simp only [hg, ArgsObj.setCommit_repoLog, hl]

theorem lookupCommit_inl_resolves (env : Env) (h : CommitHeap) (args : ArgsObj)
    (repoPath : Option String) (r : ExecResult) (tr : List Event)
    (hlc : lookupCommit env h args repoPath = (Sum.inl r, tr)) :
    ∃ v, r = .resolved v := by
  rcases hn : needsLookup h args with _ | _
  · rw [lookupCommit_skip env h args repoPath hn] at hlc
    simp at hlc
  · have key : ∀ r2 tr2,
        (match env.getLog with
          | .error _ =>
            ((Sum.inl (.resolved (.message .genericError)) : ExecResult ⊕ ArgsObj),
             [Event.getLog repoPath 2 args.sha, Event.logError,
              Event.showMessage .genericError])
          | .ok none =>
            (Sum.inl (.resolved (.message .commitNotFound)),
             [Event.getLog repoPath 2 args.sha, Event.showMessage .commitNotFound])
          | .ok (some log2) =>
            (Sum.inr (((args.setCommit none).setRepoLog none).setCommit
                (log2.get args.sha)),
             [Event.getLog repoPath 2 args.sha])) = (Sum.inl r2, tr2) →
        ∃ v, r2 = .resolved v := by
      intro r2 tr2 hm
      rcases hg : env.getLog with x | ol <;> rw [hg] at hm
      · simp at hm
        exact ⟨_, hm.1.symm⟩
      · rcases ol with _ | log2 <;> simp at hm
        exact ⟨_, hm.1.symm⟩
    rcases hl : args.repoLog with _ | log
    · rw [lookupCommit_no_cache env h args repoPath hn hl] at hlc
      have key2 : ∀ r2 tr2,
          (match env.getLog with
            | .error _ =>
              ((Sum.inl (.resolved (.message .genericError)) : ExecResult ⊕ ArgsObj),
               [Event.getLog repoPath 2 args.sha, Event.logError,
                Event.showMessage .genericError])
            | .ok none =>
              (Sum.inl (.resolved (.message .commitNotFound)),
               [Event.getLog repoPath 2 args.sha, Event.showMessage .commitNotFound])
            | .ok (some log2) =>
              (Sum.inr (args.setCommit (log2.get args.sha)),
               [Event.getLog repoPath 2 args.sha])) = (Sum.inl r2, tr2) →
          ∃ v, r2 = .resolved v := by
        intro r2 tr2 hm
        rcases hg : env.getLog with x | ol <;> rw [hg] at hm
        · simp at hm
          exact ⟨_, hm.1.symm⟩
        · rcases ol with _ | log2 <;> simp at hm
          exact ⟨_, hm.1.symm⟩
      exact key2 r tr hlc
    · rw [lookupCommit_cached env h args repoPath log hn hl] at hlc
      rcases hlg : log.get args.sha with _ | cr2 <;> rw [hlg] at hlc
      · exact key r tr hlc
      · simp at hlc

theorem resolveSha_inl_resolves (env : Env) (editor : Option EditorV) (h : CommitHeap)
    (args : ArgsObj) (repoPath : Option String) (wfn : String) (r : ExecResult)
    (tr : List Event)
    (hrs : resolveSha env editor h args repoPath wfn = (Sum.inl r, tr)) :
    ∃ v, r = .resolved v := by
  unfold resolveSha at hrs
  rcases hs : args.sha with _ | s <;> rw [hs] at hrs
  · rcases editor with _ | ed
    · simp at hrs
      exact ⟨_, hrs.1.symm⟩
    · by_cases hlt : ed.line < 0
      · simp [hlt] at hrs
        exact ⟨_, hrs.1.symm⟩
      · rcases hb : env.getBlameForLine with x | ob
        · simp [hlt, hb] at hrs
          exact ⟨_, hrs.1.symm⟩
        · rcases ob with _ | b
          · simp [hlt, hb] at hrs
            exact ⟨_, hrs.1.symm⟩
          · rcases hu : (h b.commitRef).isUncommitted with _ | _
            · simp [hlt, hb, hu] at hrs
            · simp [hlt, hb, hu] at hrs
              exact ⟨_, hrs.1.symm⟩
  · simp at hrs

theorem mainPhase_resolves (env : Env) (h : CommitHeap) (args : ArgsObj)
    (repoPath : Option String) (wfn : String)
    (hpe : env.pickExecute = .ok ()) (hefd : env.executeFileDetails = .ok ()) :
    ∃ v, (mainPhase env h args repoPath wfn).1 = .resolved v := by
  unfold mainPhase
  rcases hlc : lookupCommit env h args repoPath with ⟨rr | args2, tr⟩
  · exact lookupCommit_inl_resolves env h args repoPath rr tr hlc
  · rcases hc2 : args2.commit with _ | cr <;> simp only [hc2]
    · exact ⟨_, rfl⟩
    · exact afterResolve_resolves env h args2 cr repoPath wfn hpe hefd

/-- C3 counterexample: the claim "execute always resolves and never
rejects, for every behaviour of the collaborators including ones that
throw" is false: `await GitUri.fromUri(uri)` (line 68) sits outside both
`try`/`catch` blocks, so its rejection propagates to the caller. -/
theorem execute_can_reject_cex :
    (execute { baseEnv with fromUri := .error "boom" } none
        (ArgsObj.mk (some "c0sha") (some 0) none none none) baseHeap).1 =
      .rejected "boom" := rfl

/-- C3 amended: whenever the initial URI resolution (`GitUri.fromUri`) and
the two returned-but-not-awaited continuations (`pick.execute()` and the
file-details dispatch) resolve, `execute` resolves no matter how any other
collaborator behaves — exceptions from blame, log, branch, search and the
picker are absorbed into a displayed message. -/
theorem execute_absorbs_errors_amended (env : Env) (editor : Option EditorV)
    (args0 : ArgsObj) (h0 : CommitHeap) (g : GitUriV)
    (hfu : env.fromUri = .ok g) (hpe : env.pickExecute = .ok ())
    (hefd : env.executeFileDetails = .ok ()) :
    ∃ v, (execute env editor args0 h0).1 = .resolved v := by
  rcases hcu : env.commandUri with _ | u
  · simp only [execute, hcu]
    exact ⟨_, rfl⟩
  · simp only [execute, hcu, hfu]
    rcases hrs : resolveSha env editor h0 args0 g.repoPath (initialWfn g) with
      ⟨rr | out, tr⟩
    · exact resolveSha_inl_resolves env editor h0 args0 g.repoPath (initialWfn g)
        rr tr hrs
    · exact mainPhase_resolves env h0 out.args out.repoPath out.workingFileName
        hpe hefd

/-- Witness for the amended C3: a concrete run (blame errors) still
resolves. -/
theorem execute_absorbs_errors_amended_witness :
    ∃ v, (execute { baseEnv with getBlameForLine := .error "git blame failed" }
        none (ArgsObj.mk none none none none none) baseHeap).1 = .resolved v :=
  execute_absorbs_errors_amended
    { baseEnv with getBlameForLine := .error "git blame failed" } none
    (ArgsObj.mk none none none none none) baseHeap baseGitUri rfl rfl rfl

theorem resolveSha_trace_mem (env : Env) (editor : Option EditorV) (h : CommitHeap)
    (args : ArgsObj) (repoPath : Option String) (wfn : String) (e : Event)
    (he : e ∈ (resolveSha env editor h args repoPath wfn).2) :
    e.isGetBlame = true ∨ e = Event.logError ∨ ∃ m, e = Event.showMessage m := by
  unfold resolveSha at he
  rcases hs : args.sha with _ | s <;> simp only [hs] at he
  · rcases editor with _ | ed
    · simp at he
    · by_cases hlt : ed.line < 0
      · simp [hlt] at he
      · rcases hb : env.getBlameForLine with x | ob
        · simp [hlt, hb] at he
          rcases he with h1 | h1 | h1 <;> simp [h1, Event.isGetBlame]
        · rcases ob with _ | b
          · simp [hlt, hb] at he
            rcases he with h1 | h1 <;> simp [h1, Event.isGetBlame]
          · rcases hu : (h b.commitRef).isUncommitted with _ | _
            · simp [hlt, hb, hu] at he
              simp [he, Event.isGetBlame]
            · simp [hlt, hb, hu] at he
              rcases he with h1 | h1 <;> simp [h1, Event.isGetBlame]
  · simp at he

theorem lookupCommit_trace_mem (env : Env) (h : CommitHeap) (args : ArgsObj)
    (repoPath : Option String) (e : Event)
    (he : e ∈ (lookupCommit env h args repoPath).2) :
    e.isGetLog = true ∨ e = Event.logError ∨ ∃ m, e = Event.showMessage m := by
  rcases hn : needsLookup h args with _ | _
  · rw [lookupCommit_skip env h args repoPath hn] at he
    simp at he
  · rcases hl : args.repoLog with _ | log
    · rw [lookupCommit_no_cache env h args repoPath hn hl] at he
      rcases hg : env.getLog with x | ol <;> simp only [hg] at he
      · simp at he
        rcases he with h1 | h1 | h1 <;> simp [h1, Event.isGetLog]
      · rcases ol with _ | log2
        · simp at he
          rcases he with h1 | h1 <;> simp [h1, Event.isGetLog]
        · simp at he
          simp [he, Event.isGetLog]
    · rw [lookupCommit_cached env h args repoPath log hn hl] at he
      rcases hlg : log.get args.sha with _ | cr2 <;> simp only [hlg] at he
      · rcases hg : env.getLog with x | ol <;> simp only [hg] at he
        · simp at he
          rcases he with h1 | h1 | h1 <;> simp [h1, Event.isGetLog]
        · rcases ol with _ | log2
          · simp at he
            rcases he with h1 | h1 <;> simp [h1, Event.isGetLog]
          · simp at he
            simp [he, Event.isGetLog]
      · simp at he

theorem resolveSha_inr (env : Env) (editor : Option EditorV) (h : CommitHeap)
    (args : ArgsObj) (repoPath : Option String) (wfn : String) (out : ResolveOut)
    (tr : List Event)
    (hrs : resolveSha env editor h args repoPath wfn = (Sum.inr out, tr)) :
    out.args.goBackCommand = args.goBackCommand ∧
      out.args.showInView = args.showInView ∧
      out.args.repoLog = args.repoLog := by
  unfold resolveSha at hrs
  rcases hs : args.sha with _ | s <;> simp only [hs] at hrs
  · rcases editor with _ | ed
    · simp at hrs
    · by_cases hlt : ed.line < 0
      · simp [hlt] at hrs
      · rcases hb : env.getBlameForLine with x | ob
        · simp [hlt, hb] at hrs
        · rcases ob with _ | b
          · simp [hlt, hb] at hrs
          · rcases hu : (h b.commitRef).isUncommitted with _ | _
            · simp [hlt, hb, hu] at hrs
              obtain ⟨h1, -⟩ := hrs
              subst h1
              simp
            · simp [hlt, hb, hu] at hrs
  · simp at hrs
    obtain ⟨h1, -⟩ := hrs
    subst h1
    simp

theorem lookupCommit_inr (env : Env) (h : CommitHeap) (args : ArgsObj)
    (repoPath : Option String) (args2 : ArgsObj) (tr : List Event)
    (hlc : lookupCommit env h args repoPath = (Sum.inr args2, tr)) :
    args2.goBackCommand = args.goBackCommand ∧
      args2.showInView = args.showInView ∧ args2.sha = args.sha := by
  rcases hn : needsLookup h args with _ | _
  · rw [lookupCommit_skip env h args repoPath hn] at hlc
    simp at hlc
    obtain ⟨h1, -⟩ := hlc
    subst h1
    simp
  · rcases hl : args.repoLog with _ | log
    · rw [lookupCommit_no_cache env h args repoPath hn hl] at hlc
      rcases hg : env.getLog with x | ol <;> simp only [hg] at hlc
      · simp at hlc
      · rcases ol with _ | log2
        · simp at hlc
        · simp at hlc
          obtain ⟨h1, -⟩ := hlc
          subst h1
          simp
    · rw [lookupCommit_cached env h args repoPath log hn hl] at hlc
      rcases hlg : log.get args.sha with _ | cr2 <;> simp only [hlg] at hlc
      · rcases hg : env.getLog with x | ol <;> simp only [hg] at hlc
        · simp at hlc
        · rcases ol with _ | log2
          · simp at hlc
          · simp at hlc
            obtain ⟨h1, -⟩ := hlc
            subst h1
            simp
      · simp at hlc
        obtain ⟨h1, -⟩ := hlc
        subst h1
        simp

theorem goBackPhase_events (env : Env) (h : CommitHeap) (args : ArgsObj) (cr : Ref) :
    (∀ gb, args.goBackCommand = some gb →
       (∀ e ∈ (goBackPhase env h args cr).2.2, e.isGetBranch = false) ∧
       (∀ e ∈ (goBackPhase env h args cr).2.2, ∀ cr2 lg g2,
           e = Event.showPicker cr2 lg g2 → g2 = some gb)) ∧
    (args.goBackCommand = none →
       ∀ e ∈ (goBackPhase env h args cr).2.2, ∀ cr2 lg g2,
         e = Event.showPicker cr2 lg g2 →
         match env.getBranch with
         | .ok (some br) => g2 = some (branchGoBackItem br.name (h cr2))
         | .ok none => g2 = none
         | .error _ => False) := by
  constructor
  · intro gb hgb
    rw [goBackPhase_of_some env h args cr gb hgb]
    constructor
    · intro e he
      rcases pickerPhase_trace_mem env h args cr e he with h1 | h1 | ⟨m, h1⟩ | h1 | h1 <;>
        simp [h1, Event.isGetBranch]
    · intro e he cr2 lg g2 heq
      rcases pickerPhase_trace_mem env h args cr e he with h1 | h1 | ⟨m, h1⟩ | h1 | h1 <;>
        rw [h1] at heq <;> cases heq
      exact hgb
  · intro hgb
    rw [goBackPhase_of_none env h args cr hgb]
    rcases env.getBranch with x | ob
    · intro e he cr2 lg g2 heq
      simp at he
      rcases he with h1 | h1 | h1 <;> rw [h1] at heq <;> cases heq
    · rcases ob with _ | br
      · intro e he cr2 lg g2 heq
        simp only [List.mem_cons] at he
        rcases he with h1 | he
        · rw [h1] at heq
          cases heq
        · rcases pickerPhase_trace_mem env h args cr e he with
            h1 | h1 | ⟨m, h1⟩ | h1 | h1 <;> rw [h1] at heq <;> cases heq
          exact hgb
      · intro e he cr2 lg g2 heq
        simp only [List.mem_cons] at he
        rcases he with h1 | he
        · rw [h1] at heq
          cases heq
        · rcases pickerPhase_trace_mem env h
              (args.setGoBackCommand (some (branchGoBackItem br.name (h cr)))) cr e he with
            h1 | h1 | ⟨m, h1⟩ | h1 | h1 <;> rw [h1] at heq <;> cases heq
          simp

theorem afterResolve_events (env : Env) (h : CommitHeap) (args : ArgsObj) (cr : Ref)
    (repoPath : Option String) (wfn : String) :
    (∀ gb, args.goBackCommand = some gb →
       (∀ e ∈ (afterResolve env h args cr repoPath wfn).2.2, e.isGetBranch = false) ∧
       (∀ e ∈ (afterResolve env h args cr repoPath wfn).2.2, ∀ cr2 lg g2,
           e = Event.showPicker cr2 lg g2 → g2 = some gb)) ∧
    (args.goBackCommand = none →
       ∀ e ∈ (afterResolve env h args cr repoPath wfn).2.2, ∀ cr2 lg g2,
         e = Event.showPicker cr2 lg g2 →
         match env.getBranch with
         | .ok (some br) => g2 = some (branchGoBackItem br.name ((wfnDefault h cr wfn) cr2))
         | .ok none => g2 = none
         | .error _ => False) := by
  by_cases hv : args.showInView = some true
  · rw [afterResolve_of_view env h args cr repoPath wfn hv]
    rcases env.search with x | un
    · refine ⟨fun gb hgb => ⟨fun e he => ?_, fun e he cr2 lg g2 heq => ?_⟩,
        fun hgb e he cr2 lg g2 heq => ?_⟩
      · simp at he
        rcases he with h1 | h1 | h1 <;> simp [h1, Event.isGetBranch]
      · simp at he
        rcases he with h1 | h1 | h1 <;> rw [h1] at heq <;> cases heq
      · simp at he
        rcases he with h1 | h1 | h1 <;> rw [h1] at heq <;> cases heq
    · refine ⟨fun gb hgb => ⟨fun e he => ?_, fun e he cr2 lg g2 heq => ?_⟩,
        fun hgb e he cr2 lg g2 heq => ?_⟩
      · simp at he
        simp [he, Event.isGetBranch]
      · simp at he
        rw [he] at heq
        cases heq
      · simp at he
        rw [he] at heq
        cases heq
  · rw [afterResolve_not_view env h args cr repoPath wfn hv]
    exact goBackPhase_events env (wfnDefault h cr wfn) args cr

theorem Event.isGetBranch_false_of_isGetLog (e : Event) (h1 : e.isGetLog = true) :
    e.isGetBranch = false := by
  cases e <;> simp [Event.isGetLog, Event.isGetBranch] at h1 ⊢

theorem Event.not_showPicker_of_isGetLog (e : Event) (cr2 : Ref) (lg : Option GitLog)
    (g2 : Option CommandQuickPickItem) (h1 : e.isGetLog = true)
    (heq : e = Event.showPicker cr2 lg g2) : False := by
  rw [heq] at h1
  simp [Event.isGetLog] at h1

theorem mainPhase_events (env : Env) (h : CommitHeap) (args : ArgsObj)
    (repoPath : Option String) (wfn : String) :
    (∀ gb, args.goBackCommand = some gb →
       (∀ e ∈ (mainPhase env h args repoPath wfn).2.2, e.isGetBranch = false) ∧
       (∀ e ∈ (mainPhase env h args repoPath wfn).2.2, ∀ cr2 lg g2,
           e = Event.showPicker cr2 lg g2 → g2 = some gb)) ∧
    (args.goBackCommand = none →
       ∀ e ∈ (mainPhase env h args repoPath wfn).2.2, ∀ cr2 lg g2,
         e = Event.showPicker cr2 lg g2 →
         match env.getBranch with
         | .ok (some br) =>
             g2 = some (branchGoBackItem br.name
               ((mainPhase env h args repoPath wfn).2.1 cr2))
         | .ok none => g2 = none
         | .error _ => False) := by
  unfold mainPhase
  rcases hlc : lookupCommit env h args repoPath with ⟨rr | args2, tr0⟩
  · refine ⟨fun gb hgb => ⟨fun e he => ?_, fun e he cr2 lg g2 heq => ?_⟩,
      fun hgb e he cr2 lg g2 heq => ?_⟩
    · have hmem : e ∈ (lookupCommit env h args repoPath).2 := by
        rw [hlc]
        exact he
      rcases lookupCommit_trace_mem env h args repoPath e hmem with h1 | h1 | ⟨m, h1⟩
      · exact Event.isGetBranch_false_of_isGetLog e h1
      · simp [h1, Event.isGetBranch]
      · simp [h1, Event.isGetBranch]
    · have hmem : e ∈ (lookupCommit env h args repoPath).2 := by
        rw [hlc]
        exact he
      rcases lookupCommit_trace_mem env h args repoPath e hmem with h1 | h1 | ⟨m, h1⟩
      · exact (Event.not_showPicker_of_isGetLog e cr2 lg g2 h1 heq).elim
      · rw [h1] at heq
        cases heq
      · rw [h1] at heq
        cases heq
    · have hmem : e ∈ (lookupCommit env h args repoPath).2 := by
        rw [hlc]
        exact he
      rcases lookupCommit_trace_mem env h args repoPath e hmem with h1 | h1 | ⟨m, h1⟩
      · exact (Event.not_showPicker_of_isGetLog e cr2 lg g2 h1 heq).elim
      · rw [h1] at heq
        cases heq
      · rw [h1] at heq
        cases heq
  · obtain ⟨hgbp, hsvp, hshp⟩ := lookupCommit_inr env h args repoPath args2 tr0 hlc
    rcases hc2 : args2.commit with _ | cr <;> simp only [hc2]
    · refine ⟨fun gb hgb => ⟨fun e he => ?_, fun e he cr2 lg g2 heq => ?_⟩,
        fun hgb e he cr2 lg g2 heq => ?_⟩ <;>
        simp only [List.mem_append, List.mem_singleton] at he
      · rcases he with he | he
        · have hmem : e ∈ (lookupCommit env h args repoPath).2 := by
            rw [hlc]
            exact he
          rcases lookupCommit_trace_mem env h args repoPath e hmem with h1 | h1 | ⟨m, h1⟩
          · exact Event.isGetBranch_false_of_isGetLog e h1
          · simp [h1, Event.isGetBranch]
          · simp [h1, Event.isGetBranch]
        · simp [he, Event.isGetBranch]
      · rcases he with he | he
        · have hmem : e ∈ (lookupCommit env h args repoPath).2 := by
            rw [hlc]
            exact he
          rcases lookupCommit_trace_mem env h args repoPath e hmem with h1 | h1 | ⟨m, h1⟩
          · exact (Event.not_showPicker_of_isGetLog e cr2 lg g2 h1 heq).elim
          · rw [h1] at heq
            cases heq
          · rw [h1] at heq
            cases heq
        · rw [he] at heq
          cases heq
      · rcases he with he | he
        · have hmem : e ∈ (lookupCommit env h args repoPath).2 := by
            rw [hlc]
            exact he
          rcases lookupCommit_trace_mem env h args repoPath e hmem with h1 | h1 | ⟨m, h1⟩
          · exact (Event.not_showPicker_of_isGetLog e cr2 lg g2 h1 heq).elim
          · rw [h1] at heq
            cases heq
          · rw [h1] at heq
            cases heq
        · rw [he] at heq
          cases heq
    · refine ⟨fun gb hgb => ⟨fun e he => ?_, fun e he cr2 lg g2 heq => ?_⟩,
        fun hgb e he cr2 lg g2 heq => ?_⟩ <;>
        simp only [List.mem_append] at he
      · rcases he with he | he
        · have hmem : e ∈ (lookupCommit env h args repoPath).2 := by
            rw [hlc]
            exact he
          rcases lookupCommit_trace_mem env h args repoPath e hmem with h1 | h1 | ⟨m, h1⟩
          · exact Event.isGetBranch_false_of_isGetLog e h1
          · simp [h1, Event.isGetBranch]
          · simp [h1, Event.isGetBranch]
        · exact ((afterResolve_events env h args2 cr repoPath wfn).1 gb
            (hgbp ▸ hgb)).1 e he
      · rcases he with he | he
        · have hmem : e ∈ (lookupCommit env h args repoPath).2 := by
            rw [hlc]
            exact he
          rcases lookupCommit_trace_mem env h args repoPath e hmem with h1 | h1 | ⟨m, h1⟩
          · exact (Event.not_showPicker_of_isGetLog e cr2 lg g2 h1 heq).elim
          · rw [h1] at heq
            cases heq
          · rw [h1] at heq
            cases heq
        · exact ((afterResolve_events env h args2 cr repoPath wfn).1 gb
            (hgbp ▸ hgb)).2 e he cr2 lg g2 heq
      · rcases he with he | he
        · have hmem : e ∈ (lookupCommit env h args repoPath).2 := by
            rw [hlc]
            exact he
          rcases lookupCommit_trace_mem env h args repoPath e hmem with h1 | h1 | ⟨m, h1⟩
          · exact (Event.not_showPicker_of_isGetLog e cr2 lg g2 h1 heq).elim
          · rw [h1] at heq
            cases heq
          · rw [h1] at heq
            cases heq
        · have key := (afterResolve_events env h args2 cr repoPath wfn).2
            (hgbp ▸ hgb) e he cr2 lg g2 heq
          rw [afterResolve_heap env h args2 cr repoPath wfn]
          exact key

theorem Event.isGetBranch_false_of_isGetBlame (e : Event) (h1 : e.isGetBlame = true) :
    e.isGetBranch = false := by
  cases e <;> simp [Event.isGetBlame, Event.isGetBranch] at h1 ⊢

theorem Event.not_showPicker_of_isGetBlame (e : Event) (cr2 : Ref) (lg : Option GitLog)
    (g2 : Option CommandQuickPickItem) (h1 : e.isGetBlame = true)
    (heq : e = Event.showPicker cr2 lg g2) : False := by
  rw [heq] at h1
  simp [Event.isGetBlame] at h1

/-- C4: back-command construction.  If the caller supplied an inbound back
command it is reused verbatim: no branch lookup happens and the picker is
shown with exactly that command.  Otherwise the branch for the commit's
repository is queried and the picker's back command is the
branch-history command (parameterized by a URI derived from the resolved
commit object) exactly when a branch was found, and absent when none was
found (a branch-lookup failure never reaches the picker). -/
theorem goBack_construction (env : Env) (editor : Option EditorV) (args0 : ArgsObj)
    (h0 : CommitHeap) :
    (∀ gb, args0.goBackCommand = some gb →
       (∀ e ∈ (execute env editor args0 h0).2.2, e.isGetBranch = false) ∧
       (∀ e ∈ (execute env editor args0 h0).2.2, ∀ cr2 lg g2,
           e = Event.showPicker cr2 lg g2 → g2 = some gb)) ∧
    (args0.goBackCommand = none →
       ∀ e ∈ (execute env editor args0 h0).2.2, ∀ cr2 lg g2,
         e = Event.showPicker cr2 lg g2 →
         match env.getBranch with
         | .ok (some br) =>
             g2 = some (branchGoBackItem br.name
               ((execute env editor args0 h0).2.1 cr2))
         | .ok none => g2 = none
         | .error _ => False) := by
  rcases hcu : env.commandUri with _ | u
  · simp only [execute, hcu]
    refine ⟨fun gb hgb => ⟨fun e he => ?_, fun e he cr2 lg g2 heq => ?_⟩,
      fun hgb e he cr2 lg g2 heq => ?_⟩ <;> simp at he
  · rcases hfu : env.fromUri with x | g
    · simp only [execute, hcu, hfu]
      refine ⟨fun gb hgb => ⟨fun e he => ?_, fun e he cr2 lg g2 heq => ?_⟩,
        fun hgb e he cr2 lg g2 heq => ?_⟩ <;> simp at he
      · simp [he, Event.isGetBranch]
      · rw [he] at heq
        cases heq
      · rw [he] at heq
        cases heq
    · simp only [execute, hcu, hfu]
      rcases hrs : resolveSha env editor h0 args0 g.repoPath (initialWfn g) with
        ⟨rr | out, tr0⟩
      · refine ⟨fun gb hgb => ⟨fun e he => ?_, fun e he cr2 lg g2 heq => ?_⟩,
          fun hgb e he cr2 lg g2 heq => ?_⟩ <;>
          · have he2 : e ∈ Event.fromUri :: tr0 := he
            simp only [List.mem_cons] at he2
            rcases he2 with rfl | he2
            · first
              | rfl
              | cases heq
            · have hmem : e ∈ (resolveSha env editor h0 args0 g.repoPath
                  (initialWfn g)).2 := by
                rw [hrs]
                exact he2
              rcases resolveSha_trace_mem env editor h0 args0 g.repoPath
                  (initialWfn g) e hmem with h1 | h1 | ⟨m, h1⟩
              · first
                | exact Event.isGetBranch_false_of_isGetBlame e h1
                | exact (Event.not_showPicker_of_isGetBlame e cr2 lg g2 h1 heq).elim
              · first
                | (rw [h1] at heq
                   cases heq)
                | simp [h1, Event.isGetBranch]
              · first
                | (rw [h1] at heq
                   cases heq)
                | simp [h1, Event.isGetBranch]
      · obtain ⟨hgbp, -, -⟩ := resolveSha_inr env editor h0 args0 g.repoPath
          (initialWfn g) out tr0 hrs
        have hm := mainPhase_events env h0 out.args out.repoPath out.workingFileName
        refine ⟨fun gb hgb => ⟨fun e he => ?_, fun e he cr2 lg g2 heq => ?_⟩,
          fun hgb e he cr2 lg g2 heq => ?_⟩ <;>
          · have he2 : e ∈ Event.fromUri :: (tr0 ++
                (mainPhase env h0 out.args out.repoPath out.workingFileName).2.2) := he
            simp only [List.mem_cons, List.mem_append] at he2
            rcases he2 with rfl | he2 | he2
            · first
              | rfl
              | cases heq
            · have hmem : e ∈ (resolveSha env editor h0 args0 g.repoPath
                  (initialWfn g)).2 := by
                rw [hrs]
                exact he2
              rcases resolveSha_trace_mem env editor h0 args0 g.repoPath
                  (initialWfn g) e hmem with h1 | h1 | ⟨m, h1⟩
              · first
                | exact Event.isGetBranch_false_of_isGetBlame e h1
                | exact (Event.not_showPicker_of_isGetBlame e cr2 lg g2 h1 heq).elim
              · first
                | (rw [h1] at heq
                   cases heq)
                | simp [h1, Event.isGetBranch]
              · first
                | (rw [h1] at heq
                   cases heq)
                | simp [h1, Event.isGetBranch]
            · first
              | exact (hm.1 gb (hgbp.trans hgb)).1 e he2
              | exact (hm.1 gb (hgbp.trans hgb)).2 e he2 cr2 lg g2 heq
              | exact hm.2 (hgbp.trans hgb) e he2 cr2 lg g2 heq

/-- Witness for C4: a supplied inbound back command is reused and no branch
lookup happens in the concrete run. -/
theorem goBack_construction_witness :
    ((execute baseEnv none
        (ArgsObj.mk (some "c0sha") (some 0) none none
          (some (CommandQuickPickItem.mk "gb" "d"
            .showQuickCurrentBranchHistory []))) baseHeap).2.2.all
      (fun e => !e.isGetBranch)) = true :=
  List.all_eq_true.mpr (fun e he => by
    simp [((goBack_construction baseEnv none
        (ArgsObj.mk (some "c0sha") (some 0) none none
          (some (CommandQuickPickItem.mk "gb" "d"
            .showQuickCurrentBranchHistory []))) baseHeap).1
      (CommandQuickPickItem.mk "gb" "d" .showQuickCurrentBranchHistory []) rfl).1
      e he])

theorem goBackPhase_picker_shape (env : Env) (h : CommitHeap) (args : ArgsObj)
    (cr : Ref) :
    ∀ e ∈ (goBackPhase env h args cr).2.2, ∀ cr2 lg g2,
      e = Event.showPicker cr2 lg g2 → cr2 = cr ∧ lg = args.repoLog := by
  rcases hgb : args.goBackCommand with _ | gb
  · rw [goBackPhase_of_none env h args cr hgb]
    rcases env.getBranch with x | ob
    · intro e he cr2 lg g2 heq
      simp at he
      rcases he with h1 | h1 | h1 <;> rw [h1] at heq <;> cases heq
    · rcases ob with _ | br
      · intro e he cr2 lg g2 heq
        simp only [List.mem_cons] at he
        rcases he with h1 | he
        · rw [h1] at heq
          cases heq
        · rcases pickerPhase_trace_mem env h args cr e he with
            h1 | h1 | ⟨m, h1⟩ | h1 | h1 <;> rw [h1] at heq <;> cases heq
          exact ⟨rfl, rfl⟩
      · intro e he cr2 lg g2 heq
        simp only [List.mem_cons] at he
        rcases he with h1 | he
        · rw [h1] at heq
          cases heq
        · rcases pickerPhase_trace_mem env h
              (args.setGoBackCommand (some (branchGoBackItem br.name (h cr)))) cr
              e he with h1 | h1 | ⟨m, h1⟩ | h1 | h1 <;> rw [h1] at heq <;> cases heq
          simp
  · rw [goBackPhase_of_some env h args cr gb hgb]
    intro e he cr2 lg g2 heq
    rcases pickerPhase_trace_mem env h args cr e he with
      h1 | h1 | ⟨m, h1⟩ | h1 | h1 <;> rw [h1] at heq <;> cases heq
    exact ⟨rfl, rfl⟩

theorem afterResolve_picker_shape (env : Env) (h : CommitHeap) (args : ArgsObj)
    (cr : Ref) (repoPath : Option String) (wfn : String) :
    ∀ e ∈ (afterResolve env h args cr repoPath wfn).2.2, ∀ cr2 lg g2,
      e = Event.showPicker cr2 lg g2 → cr2 = cr ∧ lg = args.repoLog := by
  by_cases hv : args.showInView = some true
  · rw [afterResolve_of_view env h args cr repoPath wfn hv]
    rcases env.search with x | un <;> intro e he cr2 lg g2 heq <;> simp at he
    · rcases he with h1 | h1 | h1 <;> rw [h1] at heq <;> cases heq
    · rw [he] at heq
      cases heq
  · rw [afterResolve_not_view env h args cr repoPath wfn hv]
    exact goBackPhase_picker_shape env (wfnDefault h cr wfn) args cr

theorem mainPhase_cached (env : Env) (h : CommitHeap) (args : ArgsObj)
    (repoPath : Option String) (wfn : String) (log : GitLog)
    (hn : needsLookup h args = true) (hl : args.repoLog = some log) :
    mainPhase env h args repoPath wfn =
      match log.get args.sha with
      | some cr => afterResolve env h (args.setCommit (some cr)) cr repoPath wfn
      | none =>
        match env.getLog with
        | .error _ =>
          (.resolved (.message .genericError), h,
           [.getLog repoPath 2 args.sha, .logError, .showMessage .genericError])
        | .ok none =>
          (.resolved (.message .commitNotFound), h,
           [.getLog repoPath 2 args.sha, .showMessage .commitNotFound])
        | .ok (some log2) =>
          match log2.get args.sha with
          | none =>
            (.resolved (.message .commitNotFound), h,
             [.getLog repoPath 2 args.sha, .showMessage .commitNotFound])
          | some cr3 =>
            ((afterResolve env h
                (((args.setCommit none).setRepoLog none).setCommit (some cr3))
                cr3 repoPath wfn).1,
             (afterResolve env h
                (((args.setCommit none).setRepoLog none).setCommit (some cr3))
                cr3 repoPath wfn).2.1,
             .getLog repoPath 2 args.sha ::
               (afterResolve env h
                  (((args.setCommit none).setRepoLog none).setCommit (some cr3))
                  cr3 repoPath wfn).2.2) := by
  unfold mainPhase
  rw [lookupCommit_cached env h args repoPath log hn hl]
  rcases hlg : log.get args.sha with _ | cr
  · rcases hg : env.getLog with x | ol
    · rfl
    · rcases ol with _ | log2
      · rfl
      · simp only [ArgsObj.setCommit_commit]
        rcases hg2 : log2.get args.sha with _ | cr3 <;> simp
  · simp only [ArgsObj.setCommit_commit]
    rfl

/-- C1 amended: during a lookup, a cached log batch is consulted for
whatever revision id is requested, regardless of the revision it was
fetched for.  When the batch contains the target, the cached commit is
used: no fresh fetch happens, and the batch is retained (the picker
receives it together with the cached commit).  Only when the batch lacks
the target is it discarded — a fresh 2-entry fetch is issued and any picker
shown afterwards receives no batch. -/
theorem log_cache_guard_amended (env : Env) (editor : Option EditorV)
    (args0 : ArgsObj) (h0 : CommitHeap) (u : UriRaw) (g : GitUriV) (s : String)
    (log : GitLog) (hcu : env.commandUri = some u) (hfu : env.fromUri = .ok g)
    (hsha : args0.sha = some s) (hn : needsLookup h0 args0 = true)
    (hl : args0.repoLog = some log) :
    (∀ cr, log.get (some s) = some cr →
       (∀ e ∈ (execute env editor args0 h0).2.2, e.isGetLog = false) ∧
       (∀ e ∈ (execute env editor args0 h0).2.2, ∀ cr2 lg g2,
           e = Event.showPicker cr2 lg g2 → cr2 = cr ∧ lg = some log)) ∧
    (log.get (some s) = none →
       Event.getLog g.repoPath 2 (some s) ∈ (execute env editor args0 h0).2.2 ∧
       (∀ e ∈ (execute env editor args0 h0).2.2, ∀ cr2 lg g2,
           e = Event.showPicker cr2 lg g2 → lg = none)) := by
  rw [execute_of_sha env editor args0 h0 u g s hcu hfu hsha,
      mainPhase_cached env h0 args0 g.repoPath (initialWfn g) log hn hl, hsha]
  constructor
  · intro cr hit
    simp only [hit]
    constructor
    · intro e he
      have he2 : e ∈ Event.fromUri ::
          (afterResolve env h0 (args0.setCommit (some cr)) cr g.repoPath
            (initialWfn g)).2.2 := he
      simp only [List.mem_cons] at he2
      rcases he2 with rfl | he2
      · rfl
      · exact afterResolve_no_getLog _ _ _ _ _ _ e he2
    · intro e he cr2 lg g2 heq
      have he2 : e ∈ Event.fromUri ::
          (afterResolve env h0 (args0.setCommit (some cr)) cr g.repoPath
            (initialWfn g)).2.2 := he
      simp only [List.mem_cons] at he2
      rcases he2 with rfl | he2
      · cases heq
      · have hshape := afterResolve_picker_shape env h0 (args0.setCommit (some cr))
          cr g.repoPath (initialWfn g) e he2 cr2 lg g2 heq
        refine ⟨hshape.1, ?_⟩
        rw [hshape.2]
        simp [hl]
  · intro miss
    simp only [miss]
    constructor
    · rcases hg : env.getLog with x | ol
      · simp
      · rcases ol with _ | log2
        · simp
        · rcases hg2 : log2.get (some s) with _ | cr3 <;> simp [hg2]
    · intro e he cr2 lg g2 heq
      rcases hg : env.getLog with x | ol
      · rw [hg] at he
        have he2 : e ∈ [Event.fromUri, Event.getLog g.repoPath 2 (some s),
            Event.logError, Event.showMessage .genericError] := he
        simp at he2
        rcases he2 with h1 | h1 | h1 | h1 <;> rw [h1] at heq <;> cases heq
      · rw [hg] at he
        rcases ol with _ | log2
        · have he2 : e ∈ [Event.fromUri, Event.getLog g.repoPath 2 (some s),
              Event.showMessage .commitNotFound] := he
          simp at he2
          rcases he2 with h1 | h1 | h1 <;> rw [h1] at heq <;> cases heq
        · rcases hg2 : log2.get (some s) with _ | cr3 <;> simp only [hg2] at he
          · have he2 : e ∈ [Event.fromUri, Event.getLog g.repoPath 2 (some s),
                Event.showMessage .commitNotFound] := he
            simp at he2
            rcases he2 with h1 | h1 | h1 <;> rw [h1] at heq <;> cases heq
          · have he2 : e ∈ Event.fromUri :: Event.getLog g.repoPath 2 (some s) ::
                (afterResolve env h0
                  (((args0.setCommit none).setRepoLog none).setCommit (some cr3))
                  cr3 g.repoPath (initialWfn g)).2.2 := he
            simp only [List.mem_cons] at he2
            rcases he2 with rfl | rfl | he2
            · cases heq
            · cases heq
            · have hshape := afterResolve_picker_shape env h0
                (((args0.setCommit none).setRepoLog none).setCommit (some cr3))
                cr3 g.repoPath (initialWfn g) e he2 cr2 lg g2 heq
              rw [hshape.2]
              simp

/-- The cached batch of the C1 counterexample: fetched for revision id
`c1sha` (per its `fetchedFor` metadata) but also containing `c0sha`. -/
def cexBatch : GitLog := ⟨some "c1sha", [("c1sha", 1), ("c0sha", 0)]⟩

/-- The request of the C1 counterexample: target revision `c0sha`, no
commit, holding the batch fetched for `c1sha`, with an inbound back
command. -/
def cexArgs : ArgsObj :=
  .mk (some "c0sha") none (some cexBatch) none
    (some (CommandQuickPickItem.mk "gb" "d" .showQuickCurrentBranchHistory []))

/-- C1 counterexample: a cached log batch fetched for revision id `c1sha`
(≠ the target `c0sha`) IS consulted to answer the lookup for `c0sha`: the
run issues no fresh fetch (no `getLog` event), the batch is not discarded
(the picker receives it), and the commit shown (heap ref 0) comes from the
batch.  This falsifies "the cached batch is never consulted … it is
discarded first, and only a fresh fetch may produce the commit". -/
theorem stale_batch_consulted_cex :
    cexBatch.fetchedFor = some "c1sha" ∧ cexArgs.sha = some "c0sha" ∧
      cexBatch.fetchedFor ≠ cexArgs.sha ∧
      (execute baseEnv none cexArgs baseHeap).2.2 =
        [Event.fromUri,
         Event.showPicker 0 (some cexBatch)
           (some (CommandQuickPickItem.mk "gb" "d"
             .showQuickCurrentBranchHistory []))] :=
  ⟨rfl, rfl, by decide, rfl⟩

/-- Witness for the amended C1 at the counterexample input: the cached hit
produces a run with no log fetch. -/
theorem log_cache_guard_amended_witness :
    ((execute baseEnv none cexArgs baseHeap).2.2.all
      (fun e => !e.isGetLog)) = true :=
  List.all_eq_true.mpr (fun e he => by
    simp [((log_cache_guard_amended baseEnv none cexArgs baseHeap
        "file:///repo/a.ts" baseGitUri "c0sha" cexBatch rfl rfl rfl rfl rfl).1
      0 rfl).1 e he])

/-- C10: when the resolved commit is the very object the caller passed
(sha and full commit supplied) and its `workingFileName` is `undefined`,
`execute` mutates that caller-owned commit object in place, assigning
`workingFileName` (line 128); every other object in the commit heap is
left untouched.  (The arguments object itself is shallow-copied on line 73
and thus never written; the heap is the only shared-mutable state.) -/
theorem caller_commit_mutated_in_place (env : Env) (editor : Option EditorV)
    (args0 : ArgsObj) (h0 : CommitHeap) (u : UriRaw) (g : GitUriV) (s : String)
    (cr : Ref)
    (hcu : env.commandUri = some u) (hfu : env.fromUri = .ok g)
    (hsha : args0.sha = some s) (hcm : args0.commit = some cr)
    (hfile : (h0 cr).isFile = false) (hwfn : (h0 cr).workingFileName = none) :
    (execute env editor args0 h0).2.1 cr =
        (h0 cr).setWorkingFileName (initialWfn g) ∧
      ∀ r, r ≠ cr → (execute env editor args0 h0).2.1 r = h0 r := by
  have hh : (execute env editor args0 h0).2.1 = wfnDefault h0 cr (initialWfn g) := by
    rw [execute_of_sha env editor args0 h0 u g s hcu hfu hsha,
        mainPhase_skip env h0 args0 g.repoPath (initialWfn g) cr hcm hfile]
    exact afterResolve_heap env h0 args0 cr g.repoPath (initialWfn g)
  rw [hh]
  exact ⟨wfnDefault_at_none h0 cr (initialWfn g) hwfn,
    fun r hr => wfnDefault_ne h0 cr (initialWfn g) r hr⟩

/-- Witness for C10: the caller's commit object at ref 0 (workingFileName
undefined) gets its workingFileName assigned; ref 1 is untouched. -/
theorem caller_commit_mutated_in_place_witness :
    (execute baseEnv none (ArgsObj.mk (some "c0sha") (some 0) none none none)
          baseHeap).2.1 0 =
        (baseHeap 0).setWorkingFileName (initialWfn baseGitUri) ∧
      ∀ r, r ≠ 0 →
        (execute baseEnv none (ArgsObj.mk (some "c0sha") (some 0) none none none)
          baseHeap).2.1 r = baseHeap r :=
  caller_commit_mutated_in_place baseEnv none
    (ArgsObj.mk (some "c0sha") (some 0) none none none) baseHeap
    "file:///repo/a.ts" baseGitUri "c0sha" 0 rfl rfl rfl rfl rfl rfl

theorem mainPhase_heap_stable (env : Env) (h : CommitHeap) (args : ArgsObj)
    (repoPath : Option String) (wfn : String) (r : Ref)
    (hr : (h r).workingFileName.isSome = true) :
    (mainPhase env h args repoPath wfn).2.1 r = h r := by
  unfold mainPhase
  rcases hlc : lookupCommit env h args repoPath with ⟨rr | args2, tr0⟩
  · rfl
  · rcases hc2 : args2.commit with _ | cr <;> simp only [hc2]
    rw [afterResolve_heap env h args2 cr repoPath wfn]
    exact wfnDefault_of_isSome h cr wfn r hr

theorem execute_heap_stable (env : Env) (editor : Option EditorV) (args0 : ArgsObj)
    (h0 : CommitHeap) (r : Ref) (hr : (h0 r).workingFileName.isSome = true) :
    (execute env editor args0 h0).2.1 r = h0 r := by
  rcases hcu : env.commandUri with _ | u
  · simp only [execute, hcu]
  · rcases hfu : env.fromUri with x | g
    · simp only [execute, hcu, hfu]
    · simp only [execute, hcu, hfu]
      rcases hrs : resolveSha env editor h0 args0 g.repoPath (initialWfn g) with
        ⟨rr | out, tr0⟩
      · rfl
      · show (mainPhase env h0 out.args out.repoPath out.workingFileName).2.1 r = h0 r
        exact mainPhase_heap_stable env h0 out.args out.repoPath
          out.workingFileName r hr

theorem resolveSha_inl_shape (env : Env) (editor : Option EditorV) (h : CommitHeap)
    (args : ArgsObj) (repoPath : Option String) (wfn : String) (r : ExecResult)
    (tr : List Event)
    (hrs : resolveSha env editor h args repoPath wfn = (Sum.inl r, tr)) :
    r = .resolved .undef ∨ ∃ m, r = .resolved (.message m) := by
  unfold resolveSha at hrs
  rcases hs : args.sha with _ | s <;> rw [hs] at hrs
  · rcases editor with _ | ed
    · simp at hrs
      exact Or.inl hrs.1.symm
    · by_cases hlt : ed.line < 0
      · simp [hlt] at hrs
        exact Or.inl hrs.1.symm
      · rcases hb : env.getBlameForLine with x | ob
        · simp [hlt, hb] at hrs
          exact Or.inr ⟨_, hrs.1.symm⟩
        · rcases ob with _ | b
          · simp [hlt, hb] at hrs
            exact Or.inr ⟨_, hrs.1.symm⟩
          · rcases hu : (h b.commitRef).isUncommitted with _ | _
            · simp [hlt, hb, hu] at hrs
            · simp [hlt, hb, hu] at hrs
              exact Or.inr ⟨_, hrs.1.symm⟩
  · simp at hrs

theorem lookupCommit_inl_shape (env : Env) (h : CommitHeap) (args : ArgsObj)
    (repoPath : Option String) (r : ExecResult) (tr : List Event)
    (hlc : lookupCommit env h args repoPath = (Sum.inl r, tr)) :
    ∃ m, r = .resolved (.message m) := by
  rcases hn : needsLookup h args with _ | _
  · rw [lookupCommit_skip env h args repoPath hn] at hlc
    simp at hlc
  · rcases hl : args.repoLog with _ | log
    · rw [lookupCommit_no_cache env h args repoPath hn hl] at hlc
      rcases hg : env.getLog with x | ol <;> rw [hg] at hlc
      · simp at hlc
        exact ⟨_, hlc.1.symm⟩
      · rcases ol with _ | log2 <;> simp at hlc
        exact ⟨_, hlc.1.symm⟩
    · rw [lookupCommit_cached env h args repoPath log hn hl] at hlc
      rcases hlg : log.get args.sha with _ | cr2 <;> rw [hlg] at hlc
      · rcases hg : env.getLog with x | ol <;> rw [hg] at hlc
        · simp at hlc
          exact ⟨_, hlc.1.symm⟩
        · rcases ol with _ | log2 <;> simp at hlc
          exact ⟨_, hlc.1.symm⟩
      · simp at hlc

theorem pickerPhase_dispatch (env : Env) (h : CommitHeap) (args : ArgsObj)
    (cr : Ref) (u : GitUriV) (fd : FileDetailsArgs)
    (hp : (pickerPhase env h args cr).1 =
      .resolved (.dispatchedFileDetails u fd)) :
    ∃ l d u2, fd.goBackCommand =
      CommandQuickPickItem.mk l d .showQuickCommitDetails [.uri u2, .args args] := by
  unfold pickerPhase at hp
  rcases hq : env.pick with x | op <;> simp only [hq] at hp
  · cases hp
  · rcases op with _ | pr
    · cases hp
    · rcases pr with _ | ⟨pcr, psha⟩
      · rcases hq2 : env.pickExecute with x | un <;> simp only [hq2] at hp <;>
          cases hp
      · rcases hq2 : env.executeFileDetails with x | un <;> simp only [hq2] at hp
        · cases hp
        · simp at hp
          obtain ⟨-, h2⟩ := hp
          rw [← h2]
          exact ⟨_, _, _, rfl⟩

theorem goBackPhase_dispatch (env : Env) (h : CommitHeap) (args : ArgsObj)
    (cr : Ref) (u : GitUriV) (fd : FileDetailsArgs)
    (hp : (goBackPhase env h args cr).1 =
      .resolved (.dispatchedFileDetails u fd)) :
    ∃ args2 l d u2, args2.commit = args.commit ∧
      fd.goBackCommand =
        CommandQuickPickItem.mk l d .showQuickCommitDetails [.uri u2, .args args2] := by
  rcases hgb : args.goBackCommand with _ | gb
  · rw [goBackPhase_of_none env h args cr hgb] at hp
    rcases hbr : env.getBranch with x | ob <;> simp only [hbr] at hp
    · cases hp
    · rcases ob with _ | br <;> simp only [] at hp
      · obtain ⟨l, d, u2, hh⟩ := pickerPhase_dispatch env h args cr u fd hp
        exact ⟨args, l, d, u2, rfl, hh⟩
      · obtain ⟨l, d, u2, hh⟩ := pickerPhase_dispatch env h
          (args.setGoBackCommand (some (branchGoBackItem br.name (h cr)))) cr u fd hp
        exact ⟨args.setGoBackCommand (some (branchGoBackItem br.name (h cr))),
          l, d, u2, by simp, hh⟩
  · rw [goBackPhase_of_some env h args cr gb hgb] at hp
    obtain ⟨l, d, u2, hh⟩ := pickerPhase_dispatch env h args cr u fd hp
    exact ⟨args, l, d, u2, rfl, hh⟩

theorem afterResolve_dispatch (env : Env) (h : CommitHeap) (args : ArgsObj)
    (cr : Ref) (repoPath : Option String) (wfn : String) (u : GitUriV)
    (fd : FileDetailsArgs)
    (hp : (afterResolve env h args cr repoPath wfn).1 =
      .resolved (.dispatchedFileDetails u fd)) :
    ∃ args2 l d u2, args2.commit = args.commit ∧
      fd.goBackCommand =
        CommandQuickPickItem.mk l d .showQuickCommitDetails [.uri u2, .args args2] := by
  by_cases hv : args.showInView = some true
  · rw [afterResolve_of_view env h args cr repoPath wfn hv] at hp
    rcases hsr : env.search with x | un <;> simp only [hsr] at hp <;> cases hp
  · rw [afterResolve_not_view env h args cr repoPath wfn hv] at hp
    exact goBackPhase_dispatch env (wfnDefault h cr wfn) args cr u fd hp

theorem mainPhase_dispatch (env : Env) (h : CommitHeap) (args : ArgsObj)
    (repoPath : Option String) (wfn : String) (u : GitUriV) (fd : FileDetailsArgs)
    (hp : (mainPhase env h args repoPath wfn).1 =
      .resolved (.dispatchedFileDetails u fd)) :
    ∃ cr args2 l d u2, args2.commit = some cr ∧
      fd.goBackCommand =
        CommandQuickPickItem.mk l d .showQuickCommitDetails [.uri u2, .args args2] ∧
      ((mainPhase env h args repoPath wfn).2.1 cr).workingFileName.isSome = true := by
  unfold mainPhase at hp ⊢
  rcases hlc : lookupCommit env h args repoPath with ⟨rr | args2, tr0⟩ <;>
    rw [hlc] at hp
  · obtain ⟨m, hm⟩ := lookupCommit_inl_shape env h args repoPath rr tr0 hlc
    have hp2 : rr = .resolved (.dispatchedFileDetails u fd) := hp
    rw [hm] at hp2
    cases hp2
  · rcases hc2 : args2.commit with _ | cr <;> simp only [hc2] at hp ⊢
    · cases hp
    · obtain ⟨args3, l, d, u2, hc3, hh⟩ := afterResolve_dispatch env h args2 cr
        repoPath wfn u fd hp
      refine ⟨cr, args3, l, d, u2, hc3.trans hc2, hh, ?_⟩
      rw [afterResolve_heap env h args2 cr repoPath wfn]
      exact wfnDefault_at_isSome h cr wfn

theorem execute_dispatch (env : Env) (editor : Option EditorV) (args0 : ArgsObj)
    (h0 : CommitHeap) (u : GitUriV) (fd : FileDetailsArgs)
    (hrun : (execute env editor args0 h0).1 =
      .resolved (.dispatchedFileDetails u fd)) :
    ∃ cr args2 l d u2, args2.commit = some cr ∧
      fd.goBackCommand =
        CommandQuickPickItem.mk l d .showQuickCommitDetails [.uri u2, .args args2] ∧
      ((execute env editor args0 h0).2.1 cr).workingFileName.isSome = true := by
  rcases hcu : env.commandUri with _ | uc <;> simp only [execute, hcu] at hrun ⊢
  · cases hrun
  · rcases hfu : env.fromUri with x | g <;> simp only [hfu] at hrun ⊢
    · cases hrun
    · rcases hrs : resolveSha env editor h0 args0 g.repoPath (initialWfn g) with
        ⟨rr | out, tr0⟩ <;> rw [hrs] at hrun
      · rcases resolveSha_inl_shape env editor h0 args0 g.repoPath (initialWfn g)
            rr tr0 hrs with hu2 | ⟨m, hm⟩
        · have hp2 : rr = .resolved (.dispatchedFileDetails u fd) := hrun
          rw [hu2] at hp2
          cases hp2
        · have hp2 : rr = .resolved (.dispatchedFileDetails u fd) := hrun
          rw [hm] at hp2
          cases hp2
      · exact mainPhase_dispatch env h0 out.args out.repoPath out.workingFileName
          u fd hrun

/-- C2: snapshot isolation of the outbound "return here" back command.
The payload of the back command stored in a file-details dispatch embeds
step N's resolved request as an immutable value (revision id, commit
reference, cached log, show-in-view flag and the inbound back command just
computed); the only aliased, mutable datum it reaches is the referenced
commit object in the heap.  Running any subsequent invocation (step N+1,
which shallow-copies its own request object and whose only heap write
assigns a missing `workingFileName`) leaves that commit object unchanged:
step N had already assigned its `workingFileName` before constructing the
back command, so the snapshot still reproduces step N's arguments
exactly. -/
theorem back_action_snapshot_isolated (env : Env) (editor : Option EditorV)
    (args0 : ArgsObj) (h0 : CommitHeap) (env2 : Env) (editor2 : Option EditorV)
    (args1 : ArgsObj) (u : GitUriV) (fd : FileDetailsArgs) (l d : String)
    (u2 : GitUriV) (argsN : ArgsObj) (c : Ref)
    (hrun : (execute env editor args0 h0).1 =
      .resolved (.dispatchedFileDetails u fd))
    (hgb : fd.goBackCommand =
      CommandQuickPickItem.mk l d .showQuickCommitDetails [.uri u2, .args argsN])
    (hc : argsN.commit = some c) :
    (execute env2 editor2 args1 (execute env editor args0 h0).2.1).2.1 c =
      (execute env editor args0 h0).2.1 c := by
  obtain ⟨cr, args2, l2, d2, u3, hc2, hgb2, hwfn⟩ :=
    execute_dispatch env editor args0 h0 u fd hrun
  rw [hgb] at hgb2
  injection hgb2 with h1 h2 h3 h4
  injection h4 with h5 h6
  injection h6 with h7 h8
  injection h7 with h10
  rw [h10] at hc
  have hcc : cr = c := Option.some.inj (hc2.symm.trans hc)
  rw [hcc] at hwfn
  exact execute_heap_stable env2 editor2 args1
    (execute env editor args0 h0).2.1 c hwfn

/-- The collaborator environment of the C2 witness: the user picks a file
item, so the run dispatches to the file-details command. -/
def snapshotEnv : Env :=
  { baseEnv with pick := .ok (some (.fileItem 2 "c2sha")) }

/-- The request of the C2 witness: full commit at ref 0 with its sha and an
inbound back command. -/
def snapshotArgs : ArgsObj :=
  .mk (some "c0sha") (some 0) none none
    (some (CommandQuickPickItem.mk "gb" "d" .showQuickCurrentBranchHistory []))

/-- Witness for C2: a concrete dispatching run, followed by a second
invocation on the resulting heap; the snapshot's commit object (ref 0) is
unchanged by the second invocation. -/
theorem back_action_snapshot_isolated_witness :
    (execute baseEnv none (ArgsObj.mk none none none none none)
        (execute snapshotEnv none snapshotArgs baseHeap).2.1).2.1 0 =
      (execute snapshotEnv none snapshotArgs baseHeap).2.1 0 :=
  back_action_snapshot_isolated snapshotEnv none snapshotArgs baseHeap baseEnv
    none (ArgsObj.mk none none none none none) _ _ _ _ _ snapshotArgs 0
    rfl rfl rfl
